import Mathlib

set_option maxRecDepth 100000
set_option maxHeartbeats 1000000

/-!
Verification development for the mention-miniapp access subsystem.

The development shallowly embeds, in Lean 4, the parts of the code base
that carry the protocol/algorithmic content described in the design
document:

* the two HMAC-SHA256 credential validators
  (`bot/utils/webapp_validator.py` and `webapp/app.py`),
  including a byte-accurate model of Python's `urllib.parse`
  percent-decoding, `parse_qsl` / `parse_qs`, and a full executable
  SHA-256 / HMAC-SHA256;
* the retry executor (`bot/utils/retry.py`);
* the TTL cache (`bot/utils/cache.py`);
* the two orchestration endpoints of `webapp/app.py`
  (`/api/chats` and `/api/chats/<chat_id>/members`).

Machine integers are modelled as `Nat` with explicit `% 2^32` where
overflow matters; times and delays (Python floats that only ever hold
exactly representable values in the modelled code) are modelled as `ℚ`.
All definitions are executable by kernel reduction (structural
recursion only), so concrete credentials, digests and endpoint runs
evaluate with `decide` / `rfl`.
-/

/-! ## Bytes, hex digits and 32-bit words -/

/-- `2 ^ 32`, the modulus for 32-bit words. -/
def M32 : Nat := 4294967296

/-- 32-bit addition (`Nat` with explicit wrap-around). -/
def add32 (a b : Nat) : Nat := (a + b) % M32

/-- 32-bit bitwise complement of a word `x < 2^32`. -/
def not32 (x : Nat) : Nat := Nat.xor x (M32 - 1)

/-- Right rotation of a 32-bit word by `k` places. -/
def rotr32 (x k : Nat) : Nat := (x / 2 ^ k + x % 2 ^ k * 2 ^ (32 - k)) % M32

/-- Logical right shift. -/
def shr32 (x k : Nat) : Nat := x / 2 ^ k

/-- Lowercase hexadecimal digit (as produced by Python's `hexdigest`). -/
def hexDigitLower (n : Nat) : Char :=
  if n < 10 then Char.ofNat (48 + n) else Char.ofNat (87 + n)

/-- Uppercase hexadecimal digit (as produced by Python's `quote`). -/
def hexDigitUpper (n : Nat) : Char :=
  if n < 10 then Char.ofNat (48 + n) else Char.ofNat (55 + n)

/-- A byte as two lowercase hex characters. -/
def hexByteLower (b : Nat) : List Char :=
  [hexDigitLower (b / 16), hexDigitLower (b % 16)]

/-- A byte as two uppercase hex characters. -/
def hexByteUpper (b : Nat) : List Char :=
  [hexDigitUpper (b / 16), hexDigitUpper (b % 16)]

/-- Lowercase hex string of a byte list (Python `bytes.hex()` /
`hexdigest()`). -/
def hexDigest (bs : List Nat) : String := ⟨bs.flatMap hexByteLower⟩

/-- Numeric value of one hexadecimal character (either case);
`none` for a non-hex character. -/
def hexVal (c : Char) : Option Nat :=
  if 48 ≤ c.toNat ∧ c.toNat ≤ 57 then some (c.toNat - 48)
  else if 97 ≤ c.toNat ∧ c.toNat ≤ 102 then some (c.toNat - 87)
  else if 65 ≤ c.toNat ∧ c.toNat ≤ 70 then some (c.toNat - 55)
  else none

/-! ## UTF-8 encoding (Python `str.encode('utf-8')`) -/

/-- UTF-8 encoding of one Unicode scalar value, as a list of bytes. -/
def utf8EncodeChar (c : Char) : List Nat :=
  let n := c.toNat
  if n < 128 then [n]
  else if n < 2048 then [192 + n / 64, 128 + n % 64]
  else if n < 65536 then [224 + n / 4096, 128 + n / 64 % 64, 128 + n % 64]
  else [240 + n / 262144, 128 + n / 4096 % 64, 128 + n / 64 % 64, 128 + n % 64]

/-- UTF-8 encoding of a string (Python `s.encode('utf-8')`). -/
def utf8Encode (s : String) : List Nat := s.data.flatMap utf8EncodeChar

/-! ## SHA-256 (FIPS 180-4), executable over byte lists -/

/-- The 64 SHA-256 round constants. -/
def shaK : List Nat :=
  [1116352408, 1899447441, 3049323471, 3921009573,
   961987163, 1508970993, 2453635748, 2870763221,
   3624381080, 310598401, 607225278, 1426881987,
   1925078388, 2162078206, 2614888103, 3248222580,
   3835390401, 4022224774, 264347078, 604807628,
   770255983, 1249150122, 1555081692, 1996064986,
   2554220882, 2821834349, 2952996808, 3210313671,
   3336571891, 3584528711, 113926993, 338241895,
   666307205, 773529912, 1294757372, 1396182291,
   1695183700, 1986661051, 2177026350, 2456956037,
   2730485921, 2820302411, 3259730800, 3345764771,
   3516065817, 3600352804, 4094571909, 275423344,
   430227734, 506948616, 659060556, 883997877,
   958139571, 1322822218, 1537002063, 1747873779,
   1955562222, 2024104815, 2227730452, 2361852424,
   2428436474, 2756734187, 3204031479, 3329325298]

/-- The SHA-256 initial hash state. -/
def shaH0 : List Nat :=
  [1779033703, 3144134277, 1013904242, 2773480762,
   1359893119, 2600822924, 528734635, 1541459225]

def bigSigma0 (x : Nat) : Nat :=
  Nat.xor (Nat.xor (rotr32 x 2) (rotr32 x 13)) (rotr32 x 22)

def bigSigma1 (x : Nat) : Nat :=
  Nat.xor (Nat.xor (rotr32 x 6) (rotr32 x 11)) (rotr32 x 25)

def smallSigma0 (x : Nat) : Nat :=
  Nat.xor (Nat.xor (rotr32 x 7) (rotr32 x 18)) (shr32 x 3)

def smallSigma1 (x : Nat) : Nat :=
  Nat.xor (Nat.xor (rotr32 x 17) (rotr32 x 19)) (shr32 x 10)

def chFn (x y z : Nat) : Nat := Nat.xor (Nat.land x y) (Nat.land (not32 x) z)

def majFn (x y z : Nat) : Nat :=
  Nat.xor (Nat.xor (Nat.land x y) (Nat.land x z)) (Nat.land y z)

/-- Big-endian bytes of `n`, `k` bytes wide. -/
def natToBytesBE : Nat → Nat → List Nat
  | 0, _ => []
  | k + 1, n => natToBytesBE k (n / 256) ++ [n % 256]

/-- Groups a byte list into big-endian 32-bit words (dropping a
trailing incomplete group; inputs are always multiples of 4). -/
def bytesToWords : List Nat → List Nat
  | a :: b :: c :: d :: rest => (((a * 256 + b) * 256 + c) * 256 + d) :: bytesToWords rest
  | _ => []

/-- Extends the 16 words of a block to the 64-word message schedule. -/
def extendW (w : List Nat) : List Nat :=
  (List.range 48).foldl
    (fun w _ =>
      let n := w.length
      w ++ [add32 (add32 (smallSigma1 (w.getD (n - 2) 0)) (w.getD (n - 7) 0))
              (add32 (smallSigma0 (w.getD (n - 15) 0)) (w.getD (n - 16) 0))])
    w

/-- One round of the SHA-256 compression function. -/
def compressStep (s : List Nat) (wk : Nat × Nat) : List Nat :=
  match s with
  | [a, b, c, d, e, f, g, h] =>
    let t1 := add32 (add32 (add32 h (bigSigma1 e)) (add32 (chFn e f g) wk.2)) wk.1
    let t2 := add32 (bigSigma0 a) (majFn a b c)
    [add32 t1 t2, a, b, c, add32 d t1, e, f, g]
  | s => s

/-- Compression of one 64-byte block into the running hash state. -/
def compressBlock (h : List Nat) (block : List Nat) : List Nat :=
  let w := extendW (bytesToWords block)
  let s := (w.zip shaK).foldl compressStep h
  List.zipWith add32 h s

/-- SHA-256 merkle-damgard padding. -/
def shaPad (msg : List Nat) : List Nat :=
  let L := msg.length
  msg ++ 128 :: List.replicate ((119 - L % 64) % 64) 0 ++ natToBytesBE 8 (8 * L)

/-- Folds the compression function over `n` 64-byte blocks. -/
def shaBlocksGo : Nat → List Nat → List Nat → List Nat
  | 0, h, _ => h
  | n + 1, h, bytes => shaBlocksGo n (compressBlock h (bytes.take 64)) (bytes.drop 64)

/-- SHA-256 of a byte list, as 32 bytes. -/
def sha256 (msg : List Nat) : List Nat :=
  let p := shaPad msg
  (shaBlocksGo (p.length / 64) shaH0 p).flatMap (natToBytesBE 4)

/-- HMAC-SHA256 (RFC 2104) over byte lists, as Python's
`hmac.new(key, msg, hashlib.sha256).digest()`. -/
def hmacSha256 (key msg : List Nat) : List Nat :=
  let k0 := if 64 < key.length then sha256 key else key
  let kp := k0 ++ List.replicate (64 - k0.length) 0
  sha256 (kp.map (Nat.xor 92) ++ sha256 (kp.map (Nat.xor 54) ++ msg))

/-- `hmac.new(key, msg, hashlib.sha256).hexdigest()` (lowercase hex). -/
def hmacHex (key msg : List Nat) : String := hexDigest (hmacSha256 key msg)

/-! ## UTF-8 decoding with replacement (Python `bytes.decode('utf-8', errors='replace')`)

Invalid byte sequences are replaced by U+FFFD; the number of bytes an
invalid prefix consumes follows the maximal-subpart rule CPython uses
for `errors='replace'`. -/

/-- The Unicode replacement character U+FFFD. -/
def replChar : Char := Char.ofNat 65533

/-- Decodes a UTF-8 byte list, replacing invalid sequences with U+FFFD. -/
def utf8DecodeReplace : List Nat → List Char
  | [] => []
  | b :: bs =>
    if b < 128 then Char.ofNat b :: utf8DecodeReplace bs
    else if b < 194 then replChar :: utf8DecodeReplace bs
    else if b < 224 then
      match bs with
      | [] => [replChar]
      | b2 :: bs2 =>
        if 128 ≤ b2 ∧ b2 < 192 then
          Char.ofNat ((b - 192) * 64 + (b2 - 128)) :: utf8DecodeReplace bs2
        else replChar :: utf8DecodeReplace (b2 :: bs2)
    else if b < 240 then
      match bs with
      | [] => [replChar]
      | b2 :: bs2 =>
        if (if b = 224 then 160 ≤ b2 ∧ b2 < 192
            else if b = 237 then 128 ≤ b2 ∧ b2 < 160
            else 128 ≤ b2 ∧ b2 < 192) then
          match bs2 with
          | [] => [replChar]
          | b3 :: bs3 =>
            if 128 ≤ b3 ∧ b3 < 192 then
              Char.ofNat ((b - 224) * 4096 + (b2 - 128) * 64 + (b3 - 128)) :: utf8DecodeReplace bs3
            else replChar :: utf8DecodeReplace (b3 :: bs3)
        else replChar :: utf8DecodeReplace (b2 :: bs2)
    else if b < 245 then
      match bs with
      | [] => [replChar]
      | b2 :: bs2 =>
        if (if b = 240 then 144 ≤ b2 ∧ b2 < 192
            else if b = 244 then 128 ≤ b2 ∧ b2 < 144
            else 128 ≤ b2 ∧ b2 < 192) then
          match bs2 with
          | [] => [replChar]
          | b3 :: bs3 =>
            if 128 ≤ b3 ∧ b3 < 192 then
              match bs3 with
              | [] => [replChar]
              | b4 :: bs4 =>
                if 128 ≤ b4 ∧ b4 < 192 then
                  Char.ofNat ((b - 240) * 262144 + (b2 - 128) * 4096 + (b3 - 128) * 64 + (b4 - 128))
                    :: utf8DecodeReplace bs4
                else replChar :: utf8DecodeReplace (b4 :: bs4)
            else replChar :: utf8DecodeReplace (b3 :: bs3)
        else replChar :: utf8DecodeReplace (b2 :: bs2)
    else replChar :: utf8DecodeReplace bs

/-! ## Percent decoding (Python `urllib.parse.unquote`) -/

/-- `unquote_to_bytes` restricted to one ASCII chunk: literal characters
become their bytes, a `%` followed by two hex digits becomes that byte,
an invalid `%` stays literal. -/
def percentBytes : List Char → List Nat
  | [] => []
  | c :: rest =>
    if c = '%' then
      match rest with
      | a :: b :: rest2 =>
        match hexVal a, hexVal b with
        | some x, some y => (16 * x + y) :: percentBytes rest2
        | _, _ => 37 :: percentBytes (a :: b :: rest2)
      | r => 37 :: percentBytes r
    else c.toNat :: percentBytes rest

/-- Percent-decode one maximal ASCII chunk and UTF-8-decode the bytes
with replacement (CPython decodes each ASCII chunk of the input this
way and leaves non-ASCII characters untouched). -/
def decodeRun (run : List Char) : List Char := utf8DecodeReplace (percentBytes run)

/-- Worker for `unquote`: collects the current ASCII chunk (reversed)
in `acc` and decodes it when a non-ASCII character or the end is hit. -/
def unquoteGo (acc : List Char) : List Char → List Char
  | [] => decodeRun acc.reverse
  | c :: rest =>
    if c.toNat < 128 then unquoteGo (c :: acc) rest
    else decodeRun acc.reverse ++ c :: unquoteGo [] rest

/-- Python `urllib.parse.unquote(s, encoding='utf-8', errors='replace')`. -/
def unquote (s : String) : String := ⟨unquoteGo [] s.data⟩

/-! ## Query-string parsing (Python `urllib.parse.parse_qsl` / `parse_qs`) -/

/-- Splits a character list on a separator character (`str.split(sep)`). -/
def splitOnChar (sep : Char) (l : List Char) : List (List Char) :=
  l.foldr
    (fun ch acc =>
      match acc with
      | hd :: tl => if ch = sep then [] :: hd :: tl else (ch :: hd) :: tl
      | [] => [[ch]])
    [[]]

/-- Splits at the first occurrence of `c` (`str.split(c, 1)`);
`none` when `c` does not occur. -/
def splitFirst (c : Char) : List Char → Option (List Char × List Char)
  | [] => none
  | x :: rest =>
    if x = c then some ([], rest)
    else (splitFirst c rest).map (fun p => (x :: p.1, p.2))

/-- `'+'` to space replacement applied by `parse_qsl` before unquoting. -/
def plusToSpace (cs : List Char) : List Char :=
  cs.map (fun c => if c = '+' then ' ' else c)

/-- `unquote(chunk.replace('+', ' '))` as used on names and values. -/
def unqPlus (cs : List Char) : String := unquote ⟨plusToSpace cs⟩

/-- Python `urllib.parse.parse_qsl(s, keep_blank_values=keepBlank)`
(default separator `'&'`, `strict_parsing=False`, utf-8/replace). -/
def parseQsl (keepBlank : Bool) (s : String) : List (String × String) :=
  (splitOnChar '&' s.data).filterMap (fun seg =>
    if seg.isEmpty then none
    else
      match splitFirst '=' seg with
      | none => if keepBlank then some (unqPlus seg, "") else none
      | some (n, v) =>
        if v.isEmpty && !keepBlank then none
        else some (unqPlus n, unqPlus v))

/-! ## Python dict and int helpers -/

/-- First binding of `k` in an association list. For the webapp's
`parse_qs` result this is `parsed_data[k][0]` (the first value parsed
for `k`); it is also ordinary lookup for lists with unique keys. -/
def alookup {α : Type} (k : String) : List (String × α) → Option α
  | [] => none
  | (k2, v) :: rest => if k2 = k then some v else alookup k rest

/-- `d[k] = v` on an insertion-ordered dict: updates the value in place
when `k` is present, appends otherwise. -/
def dictInsert {α : Type} (d : List (String × α)) (k : String) (v : α) : List (String × α) :=
  if d.any (fun p => p.1 = k) then d.map (fun p => if p.1 = k then (k, v) else p)
  else d ++ [(k, v)]

/-- Python `dict(pairs)`: keys in first-insertion order, later values
win. -/
def pyDict {α : Type} (l : List (String × α)) : List (String × α) :=
  l.foldl (fun d p => dictInsert d p.1 p.2) []

/-- Removes a key from a dict (`dict.pop` / `del`). -/
def dictErase {α : Type} (d : List (String × α)) (k : String) : List (String × α) :=
  d.filter (fun p => !decide (p.1 = k))

/-- Key list with duplicates removed keeping first occurrences
(`parse_qs` dict key order). -/
def dedupFirstGo (seen : List String) : List String → List String
  | [] => []
  | k :: ks =>
    if seen.contains k then dedupFirstGo seen ks
    else k :: dedupFirstGo (k :: seen) ks

def dedupFirst (ks : List String) : List String := dedupFirstGo [] ks

/-- ASCII decimal digit. -/
def isPyDigit (c : Char) : Bool := decide (48 ≤ c.toNat ∧ c.toNat ≤ 57)

/-- Whitespace stripped by Python `int()` (ASCII whitespace; `int()`
also strips some Unicode spaces, which do not occur in the modelled
data). -/
def isPySpace (c : Char) : Bool :=
  c = ' ' ∨ c = '\t' ∨ c = '\n' ∨ c = '\r' ∨ c = Char.ofNat 11 ∨ c = Char.ofNat 12

/-- Digit-run parser allowing single underscores between digits
(Python `int()` digit grammar, ASCII digits). -/
def parseDigitsGo (acc : Nat) : List Char → Option Nat
  | [] => some acc
  | c :: rest =>
    if isPyDigit c then parseDigitsGo (acc * 10 + (c.toNat - 48)) rest
    else if c = '_' then
      match rest with
      | d :: rest2 =>
        if isPyDigit d then parseDigitsGo (acc * 10 + (d.toNat - 48)) rest2 else none
      | [] => none
    else none

def parseDigits : List Char → Option Nat
  | [] => none
  | c :: rest => if isPyDigit c then parseDigitsGo (c.toNat - 48) rest else none

/-- Python `str.strip()` (ASCII whitespace). -/
def pyStrip (s : String) : String :=
  ⟨((s.data.dropWhile isPySpace).reverse.dropWhile isPySpace).reverse⟩

/-- Python `int(s)`: strips whitespace, optional sign, decimal digits
(with underscores); `none` models `ValueError`. -/
def pyParseInt (s : String) : Option Int :=
  let cs := ((s.data.dropWhile isPySpace).reverse.dropWhile isPySpace).reverse
  match cs with
  | '+' :: rest => (parseDigits rest).map Int.ofNat
  | '-' :: rest => (parseDigits rest).map (fun n => -(n : Int))
  | rest => (parseDigits rest).map Int.ofNat

/-! ## Percent encoding (Python `urllib.parse.urlencode` with `quote_plus`) -/

/-- Characters `quote_plus` leaves unescaped (`ALWAYS_SAFE` with the
default `safe=''`). -/
def alwaysSafeChar (c : Char) : Bool :=
  decide ((65 ≤ c.toNat ∧ c.toNat ≤ 90) ∨ (97 ≤ c.toNat ∧ c.toNat ≤ 122) ∨
    (48 ≤ c.toNat ∧ c.toNat ≤ 57) ∨ c = '_' ∨ c = '.' ∨ c = '-' ∨ c = '~')

/-- `quote_plus` on one character: safe characters unchanged, space to
`'+'`, anything else percent-encoded per UTF-8 byte (uppercase hex). -/
def quoteChar (c : Char) : List Char :=
  if alwaysSafeChar c then [c]
  else if c = ' ' then ['+']
  else (utf8EncodeChar c).flatMap (fun b => '%' :: hexByteUpper b)

def quotePlusChars (cs : List Char) : List Char := cs.flatMap quoteChar

/-- Python `urllib.parse.quote_plus(s)`. -/
def quote_plus (s : String) : String := ⟨quotePlusChars s.data⟩

/-- `'&'`-joined list of character lists. -/
def intercalateChar (c : Char) : List (List Char) → List Char
  | [] => []
  | [x] => x
  | x :: y :: rest => x ++ c :: intercalateChar c (y :: rest)

/-- Python `urllib.parse.urlencode(F)`: each pair becomes
`quote_plus(k)=quote_plus(v)`, pairs joined with `'&'`. -/
def urlencode (F : List (String × String)) : String :=
  ⟨intercalateChar '&' (F.map (fun p => quotePlusChars p.1.data ++ '=' :: quotePlusChars p.2.data))⟩

/-! ## The webapp credential validator (`webapp/app.py`,
`validate_telegram_webapp_data`)

The Python function returns a plain `bool`; its `False` is produced at
several distinct return sites. The embedding returns an outcome naming
the return site (`empty`, `missingSignature`, `badSignature`,
`expired`, `malformedAuthDate`, `valid`); `toBool` recovers the
function's verdict. -/

inductive WebAuthOutcome where
  | empty
  | missingSignature
  | badSignature
  | expired
  | malformedAuthDate
  | valid
  deriving DecidableEq, Repr

def WebAuthOutcome.toBool : WebAuthOutcome → Bool
  | .valid => true
  | _ => false

/-- `'\n'.join(parts)`. -/
def joinNl (parts : List String) : String := String.intercalate "\n" parts

/-- Python `sorted` on strings: lexicographic by code point. -/
def sortStrings (ks : List String) : List String :=
  List.insertionSort (fun a b => a.data ≤ b.data) ks

/-- The webapp's `data_check_string`: all `key=value` pairs except
`hash`, keys sorted, value = `parsed_data[key][0]`, joined by `'\n'`. -/
def webDataCheckString (pairs : List (String × String)) : String :=
  joinNl (((sortStrings (dedupFirst (pairs.map Prod.fst))).filter (fun k => k ≠ "hash")).map
    (fun k => k ++ "=" ++ (alookup k pairs).getD ""))

/-- `Config.get_webapp_secret_key()` (`bot/config.py`): the configured
`WEBAPP_SECRET_KEY` used directly as bytes, else
`hmac.new(TOKEN, "WebAppData", sha256).digest()`. -/
def get_webapp_secret_key (webappSecretKeyCfg : Option String) (token : String) : List Nat :=
  match webappSecretKeyCfg with
  | some s => utf8Encode s
  | none => hmacSha256 (utf8Encode token) (utf8Encode "WebAppData")

/-- `validate_telegram_webapp_data` from `webapp/app.py`.
`secretKey` is the result of `Config.get_webapp_secret_key()`; `now` is
`int(time.time())`. Parsing is `parse_qs(init_data,
keep_blank_values=True)`; the signature is checked before `auth_date`,
whose maximum age is the hard-coded 86400 seconds. (The source's
`'hash' not in parsed_data or not parsed_data['hash']` reduces to plain
key membership, since `parse_qs` never stores an empty list.) -/
def webappValidate (secretKey : List Nat) (now : Int) (initData : String) : WebAuthOutcome :=
  if initData = "" then .empty
  else
    let pairs := parseQsl true initData
    match alookup "hash" pairs with
    | none => .missingSignature
    | some receivedHash =>
      let calculated := hmacHex secretKey (utf8Encode (webDataCheckString pairs))
      if calculated ≠ receivedHash then .badSignature
      else
        match alookup "auth_date" pairs with
        | none => .valid
        | some v =>
          match pyParseInt v with
          | none => .malformedAuthDate
          | some t => if now - t > 86400 then .expired else .valid

/-! ## The bot credential validator (`bot/utils/webapp_validator.py`,
`validate_telegram_webapp_data`)

Also a `bool` in the source; the outcome names the return site.
`exceptionCaught` is the `except Exception` fallback, reached in two
ways the source cannot avoid:

* whenever `auth_date` is present and parses as an integer, the age
  comparison reads `Config.WEBAPP_DATA_MAX_AGE`, an attribute that is
  defined nowhere in the code base, so an `AttributeError` escapes the
  inner `except (ValueError, TypeError)` handler (the signature is
  never even computed in that case, because the freshness check runs
  before the hash comparison in this implementation);
* when `Config.WEBAPP_SECRET_KEY` is unset (`None`), `None.encode`
  raises at key-derivation time.

`malformedAuthDate` is the inner `except (ValueError, TypeError)`
return site for an unparsable `auth_date`. -/

inductive BotAuthOutcome where
  | empty
  | missingSignature
  | malformedAuthDate
  | exceptionCaught
  | badSignature
  | valid
  deriving DecidableEq, Repr

def BotAuthOutcome.toBool : BotAuthOutcome → Bool
  | .valid => true
  | _ => false

/-- The bot's `data_check_string`: keys of the dict (hash removed)
sorted, each value passed through `unquote` a second time (the values
were already percent-decoded once by `parse_qsl`). -/
def botDataCheckString (d : List (String × String)) : String :=
  joinNl ((sortStrings (d.map Prod.fst)).map
    (fun k => k ++ "=" ++ unquote ((alookup k d).getD "")))

/-- `hmac.compare_digest` (constant-time in Python; semantically
string equality). -/
def hmacCompareDigest (a b : String) : Bool := a = b

/-- Key derivation and comparison tail of the bot validator:
`secret_key = hmac.new(b"WebAppData", WEBAPP_SECRET_KEY, sha256).digest()`,
then `hmac.new(secret_key, data_check_string, sha256).hexdigest()`
compared against the received hash. -/
def botCheckSignature (webappSecretKeyCfg : Option String) (d : List (String × String))
    (receivedHash : String) : BotAuthOutcome :=
  match webappSecretKeyCfg with
  | none => .exceptionCaught
  | some secret =>
    let secretKey := hmacSha256 (utf8Encode "WebAppData") (utf8Encode secret)
    let calculated := hmacHex secretKey (utf8Encode (botDataCheckString d))
    if hmacCompareDigest calculated receivedHash then .valid else .badSignature

/-- `validate_telegram_webapp_data` from `bot/utils/webapp_validator.py`.
Parsing is `dict(parse_qsl(init_data))` (blank values dropped, later
duplicates win); `hash` is popped (`None` or empty → failure); then the
`auth_date` check runs (see `BotAuthOutcome` for why a present,
parsable `auth_date` always ends in `exceptionCaught`); only then the
signature would be compared. The outcome does not depend on the clock:
no reachable branch compares the age against a bound. -/
def botValidate (webappSecretKeyCfg : Option String) (initData : String) : BotAuthOutcome :=
  if initData = "" then .empty
  else
    let d0 := pyDict (parseQsl false initData)
    match alookup "hash" d0 with
    | none => .missingSignature
    | some receivedHash =>
      if receivedHash = "" then .missingSignature
      else
        let d := dictErase d0 "hash"
        match alookup "auth_date" d with
        | some v =>
          if v ≠ "" then
            match pyParseInt v with
            | none => .malformedAuthDate
            | some _ => .exceptionCaught
          else botCheckSignature webappSecretKeyCfg d receivedHash
        | none => botCheckSignature webappSecretKeyCfg d receivedHash

/-! ## Issuer-side constructions used by the claims -/

/-- The canonical string of a field map as the design document words
it: keys sorted lexicographically ascending, joined as `key=value`
with `'\n'`. -/
def canonicalSpec (F : List (String × String)) : String :=
  joinNl ((sortStrings (F.map Prod.fst)).map (fun k => k ++ "=" ++ (alookup k F).getD ""))

/-- A credential for field map `F` signed the way the webapp validator
itself verifies: URL-encode `F` plus a `hash` field holding the
lowercase hex HMAC-SHA256 of the canonical string under `secretKey`. -/
def signedCredentialWeb (secretKey : List Nat) (F : List (String × String)) : String :=
  urlencode (F ++ [("hash", hmacHex secretKey (utf8Encode (canonicalSpec F)))])

/-- A credential signed the way the bot validator derives its key:
`derived = HMAC(key="WebAppData", msg=secret)` (one keyed-hash step
over the fixed domain-separation string), hash over the same canonical
string. -/
def signedCredentialBot (secret : String) (F : List (String × String)) : String :=
  urlencode (F ++ [("hash",
    hmacHex (hmacSha256 (utf8Encode "WebAppData") (utf8Encode secret))
      (utf8Encode (canonicalSpec F)))])

/-- The freshness premise of the round-trip claim: `auth_date` absent,
or parsing to a timestamp within 86400 seconds of `now`. -/
def authDateFresh (now : Int) (F : List (String × String)) : Bool :=
  match alookup "auth_date" F with
  | none => true
  | some v =>
    match pyParseInt v with
    | some t => decide (now - t ≤ 86400)
    | none => false

/-! ## The TTL cache (`bot/utils/cache.py`, `SimpleCache`)

`time.time()` is passed explicitly as `now : ℚ`; the dict becomes an
insertion-ordered association list with unique keys and every mutating
method returns the new state. The lock only serialises the methods and
has no sequential semantics. -/

structure CacheEntry (α : Type) where
  value : α
  expires_at : ℚ
  created_at : ℚ
  deriving DecidableEq, Repr

/-- `CacheEntry.__init__`: `expires_at = time.time() + ttl` (the two
`time.time()` reads of the constructor are modelled as one instant). -/
def CacheEntry.mk' {α : Type} (now : ℚ) (value : α) (ttl : ℚ) : CacheEntry α :=
  ⟨value, now + ttl, now⟩

/-- `CacheEntry.is_expired`: strictly `time.time() > expires_at`. -/
def CacheEntry.is_expired {α : Type} (e : CacheEntry α) (now : ℚ) : Bool :=
  now > e.expires_at

abbrev SimpleCache (α : Type) := List (String × CacheEntry α)

/-- `SimpleCache.get`: absent → `None`; expired → delete the entry and
return `None`; otherwise the stored value. Returns the value together
with the possibly-shrunk cache. -/
def SimpleCache.get {α : Type} (c : SimpleCache α) (now : ℚ) (key : String) :
    Option α × SimpleCache α :=
  match alookup key c with
  | none => (none, c)
  | some e => if e.is_expired now then (none, dictErase c key) else (some e.value, c)

/-- `SimpleCache.set` (source default `ttl=300.0`). -/
def SimpleCache.set {α : Type} (c : SimpleCache α) (now : ℚ) (key : String) (value : α)
    (ttl : ℚ) : SimpleCache α :=
  dictInsert c key (CacheEntry.mk' now value ttl)

/-- `SimpleCache.delete`. -/
def SimpleCache.delete {α : Type} (c : SimpleCache α) (key : String) : SimpleCache α :=
  dictErase c key

/-- Python `str.startswith`. -/
def pyStartsWith (s pre : String) : Bool := pre.data.isPrefixOf s.data

/-- `SimpleCache.invalidate_pattern`: deletes every key that starts
with the given prefix. -/
def SimpleCache.invalidate_pattern {α : Type} (c : SimpleCache α) (pat : String) :
    SimpleCache α :=
  c.filter (fun p => !pyStartsWith p.1 pat)

structure CacheStats where
  total_entries : Nat
  expired_entries : Nat
  active_entries : Nat
  deriving DecidableEq, Repr

/-- `SimpleCache.get_stats` at instant `now`. -/
def SimpleCache.get_stats {α : Type} (c : SimpleCache α) (now : ℚ) : CacheStats :=
  let total := c.length
  let expired := (c.filter (fun p => p.2.is_expired now)).length
  ⟨total, expired, total - expired⟩

/-! ## The retry executor (`bot/utils/retry.py`) -/

/-- The error classes the executor distinguishes
(`telegram.error` exception classes; `fatal` is any other exception). -/
inductive PyErr where
  | retryAfter (w : Int)
  | network
  | timedOut
  | conflict
  | fatal
  deriving DecidableEq, Repr

/-- `should_retry`: `RetryAfter`, `NetworkError`, `TimedOut` and
`Conflict` are retried; everything else is not. -/
def should_retry : PyErr → Bool
  | .retryAfter _ => true
  | .network => true
  | .timedOut => true
  | .conflict => true
  | .fatal => false

def MAX_RETRIES : Nat := 3
def INITIAL_DELAY : ℚ := 1
def MAX_DELAY : ℚ := 60
def BACKOFF_MULTIPLIER : ℚ := 2

/-- The exponential branch of `calculate_delay`:
`min(INITIAL_DELAY * BACKOFF_MULTIPLIER ** (attempt - 1), MAX_DELAY)`. -/
def expDelay (attempt : Nat) : ℚ :=
  min (INITIAL_DELAY * BACKOFF_MULTIPLIER ^ (attempt - 1)) MAX_DELAY

/-- Python truthiness of the optional `retry_after` value
(`None` and `0` are falsy). -/
def pyTruthy : Option Int → Bool
  | none => false
  | some w => w ≠ 0

/-- `calculate_delay(attempt, retry_after)`: the server-stated wait
capped at `MAX_DELAY` when `retry_after` is truthy, else the
exponential schedule. -/
def calculate_delay (attempt : Nat) (retry_after : Option Int) : ℚ :=
  if pyTruthy retry_after then min ((retry_after.getD 0 : Int) : ℚ) MAX_DELAY
  else expDelay attempt

/-- `retry_after = getattr(e, 'retry_after', None)` guarded by
`isinstance(e, RetryAfter)`. -/
def retryAfterOf : PyErr → Option Int
  | .retryAfter w => some w
  | _ => none

inductive RetryOutcome (α : Type) where
  | ok (a : α)
  | err (e : PyErr)
  | exhaustedLoop
  deriving DecidableEq, Repr

/-- One execution of the wrapped operation under `retry_async`:
the final outcome, how many times the operation was invoked, and the
backoff delays slept between invocations, in order.
`exhaustedLoop` is the trailing `raise RuntimeError` path, reachable
only with `max_attempts < 1`. -/
structure RetryTrace (α : Type) where
  outcome : RetryOutcome α
  calls : Nat
  delays : List ℚ
  deriving DecidableEq, Repr

/-- The `for attempt in range(1, max_attempts + 1)` loop. `op i` is the
result of the `i`-th invocation of the wrapped operation; the first
argument is the number of loop iterations left (initially
`max_attempts`, so the fuel never runs out before the loop's own
exits). -/
def retryFrom {α : Type} (op : Nat → Except PyErr α) (maxAttempts : Nat) :
    Nat → Nat → List ℚ → RetryTrace α
  | 0, attempt, ds => ⟨.exhaustedLoop, attempt - 1, ds⟩
  | remaining + 1, attempt, ds =>
    match op attempt with
    | .ok a => ⟨.ok a, attempt, ds⟩
    | .error e =>
      if should_retry e then
        if maxAttempts ≤ attempt then ⟨.err e, attempt, ds⟩
        else retryFrom op maxAttempts remaining (attempt + 1)
          (ds ++ [calculate_delay attempt (retryAfterOf e)])
      else ⟨.err e, attempt, ds⟩

/-- `retry_async(max_attempts)(op)` with the default `retry_on =
should_retry` classifier. -/
def retry_async {α : Type} (op : Nat → Except PyErr α) (maxAttempts : Nat) : RetryTrace α :=
  retryFrom op maxAttempts maxAttempts 1 []

/-! ## The web-layer response cache

The Flask endpoints use `flask_caching`'s `SimpleCache` (a third-party
collaborator, not code of this repository). Modelled from its
interface: `get` returns the stored value while `now` is before the
entry's deadline (values are stored pickled, so a reader gets a copy
and cannot mutate the stored entry), `set(key, value, timeout)` stores
with deadline `now + timeout`, `delete` removes. -/

structure FlaskCacheEntry (α : Type) where
  expires : ℚ
  value : α
  deriving DecidableEq, Repr

abbrev FlaskCache (α : Type) := List (String × FlaskCacheEntry α)

def FlaskCache.get {α : Type} (c : FlaskCache α) (now : ℚ) (k : String) : Option α :=
  match alookup k c with
  | some e => if now < e.expires then some e.value else none
  | none => none

def FlaskCache.set {α : Type} (c : FlaskCache α) (now : ℚ) (k : String) (v : α)
    (timeout : ℚ) : FlaskCache α :=
  dictInsert c k ⟨now + timeout, v⟩

def FlaskCache.delete {α : Type} (c : FlaskCache α) (k : String) : FlaskCache α :=
  dictErase c k

/-- A JSON API response: `jsonify(body)` with an HTTP status, or an
error body `{'success': False, 'error': msg}` with its status. -/
inductive ApiResponse (β : Type) where
  | json (status : Nat) (body : β)
  | jsonError (status : Nat) (errorMsg : String)
  deriving DecidableEq, Repr

/-! ## The members endpoint (`webapp/app.py`, `get_chat_members`) -/

structure Member where
  id : Int
  first_name : String
  profile_photo_url : Option String
  deriving DecidableEq, Repr

/-- Behaviour of the external collaborators during one request:
`chat_service.is_user_creator` and `chat_service.is_bot_admin` catch
their own API errors and return `bool`;
`chat_service.get_chat_members_list` may raise a `TelegramError`
(modelled as `.error ()`). -/
structure MembersEnv where
  is_user_creator : Bool
  is_bot_admin : Bool
  get_chat_members_list : Except Unit (List Member)

def notCreatorMsg : String := "Пользователь не является создателем группы"
def notAdminMsg : String := "Бот не является администратором группы"
def cachedWarningMsg : String :=
  "Telegram API временно недоступен. Показаны кэшированные данные."
/-- Stand-in for `get_user_friendly_message(handle_telegram_error(e))`
(`bot/exceptions.py` maps error classes to Russian user texts; the
claims do not depend on the specific text). -/
def tgUserFriendlyMsg : String := "Произошла ошибка Telegram API"

def photoFullUrl (token path : String) : String :=
  "https://api.telegram.org/file/bot" ++ token ++ "/" ++ path

/-- The photo-URL rewrite loop of `check_and_get_members`. -/
def membersWithUrls (token : String) (ms : List Member) : List Member :=
  ms.map (fun m =>
    match m.profile_photo_url with
    | some p => { m with profile_photo_url := some (photoFullUrl token p) }
    | none => m)

/-- `check_and_get_members` (the inner coroutine of the members
endpoint). The Python function returns `(None, error_message)` or
`(members, None)` — embedded as a sum — and lets `TelegramError` from
`get_chat_members_list` propagate. -/
def check_and_get_members (env : MembersEnv) (token : String) :
    Except Unit (String ⊕ List Member) :=
  if ¬ env.is_user_creator then .ok (.inl notCreatorMsg)
  else if ¬ env.is_bot_admin then .ok (.inl notAdminMsg)
  else
    match env.get_chat_members_list with
    | .error e => .error e
    | .ok ms => .ok (.inr (membersWithUrls token ms))

structure MembersBody where
  success : Bool
  members : List Member
  cached : Bool
  warning : Option String
  deriving DecidableEq, Repr

def membersCacheKey (chatId userId : Int) : String :=
  "members_" ++ toString chatId ++ "_" ++ toString userId

/-- `POST /api/chats/<chat_id>/members` (`get_chat_members`): user-id
guard, signature validation, cache probe (skipped on `force_refresh`),
`check_and_get_members`, 403 on an authorization message (nothing
cached), success cached for 900 s, and on a propagated `TelegramError`
the stale-if-error fallback serving the cached body marked
`cached=True` (or 503 when there is none). `now : ℚ` is the wall
clock used for the cache, `tnow : Int` the integer clock used by the
validator. -/
def get_chat_members (env : MembersEnv) (token : String) (secretKey : List Nat)
    (now : ℚ) (tnow : Int) (chatId : Int) (initData : String) (userId : Option Int)
    (forceRefresh : Bool) (cache : FlaskCache MembersBody) :
    ApiResponse MembersBody × FlaskCache MembersBody :=
  match userId with
  | none => (.jsonError 400 "User ID не предоставлен", cache)
  | some uid =>
    if (webappValidate secretKey tnow initData).toBool = false then
      (.jsonError 401 "Невалидные данные WebApp. Проверка подписи не пройдена.", cache)
    else
      let key := membersCacheKey chatId uid
      match (if forceRefresh then none else cache.get now key) with
      | some body => (.json 200 body, cache)
      | none =>
        match check_and_get_members env token with
        | .ok (.inl errMsg) => (.jsonError 403 errMsg, cache)
        | .ok (.inr ms) =>
          let body : MembersBody := ⟨true, ms, false, none⟩
          (.json 200 body, cache.set now key body 900)
        | .error _ =>
          match cache.get now key with
          | some b => (.json 200 { b with cached := true, warning := some cachedWarningMsg }, cache)
          | none => (.jsonError 503 tgUserFriendlyMsg, cache)

/-! ## The chats endpoint (`webapp/app.py`, `get_chats`) -/

structure ChatInfo where
  id : Int
  title : Option String
  ctype : String
  username : Option String
  members_count : Option Int
  deriving DecidableEq, Repr

/-- Collaborator behaviour for one `/api/chats` request.
`initialize_ok = false` models `bot.initialize()` raising (the inner
handler catches it); `get_chat` models `bot.get_chat`; the permission
checks catch their own API errors and return `bool`; `chat_photo`
models `fetch_chat_photo`, which catches every exception and returns
an optional URL. -/
structure ChatsEnv where
  initialize_ok : Bool
  stored_chat_ids : List Int
  get_chat : Int → Except Unit ChatInfo
  is_bot_admin : Int → Bool
  is_user_creator : Int → Int → Bool
  chat_photo : Int → Option String

/-- `ChatType.is_group` (`bot/constants.py`). -/
def ChatType.is_group (t : String) : Bool := t = "group" ∨ t = "supergroup"

structure ChatData where
  id : Int
  title : String
  ctype : String
  username : Option String
  members_count : Option Int
  photo_url : Option String
  deriving DecidableEq, Repr

structure SkipCounts where
  not_group : Nat
  not_admin : Nat
  not_creator : Nat
  deriving DecidableEq, Repr

/-- `build_chat_data` (`webapp/utils/chat_helpers.py`). -/
def build_chat_data (chat : ChatInfo) (photoUrl : Option String) : ChatData :=
  ⟨chat.id, chat.title.getD "Без названия", chat.ctype, chat.username,
   chat.members_count, photoUrl⟩

/-- `process_chat` (`webapp/utils/chat_helpers.py`): a failing
`bot.get_chat` is caught and yields `(None, all-zero counters)`; the
kind and the two authorization checks skip with the matching counter;
otherwise the summary record is built (the `chat_storage.register_chat`
write goes to the external registry and is not part of the cache state
the claims are about). -/
def process_chat (env : ChatsEnv) (chatId userId : Int) : Option ChatData × SkipCounts :=
  match env.get_chat chatId with
  | .error _ => (none, ⟨0, 0, 0⟩)
  | .ok chat =>
    if ¬ ChatType.is_group chat.ctype then (none, ⟨1, 0, 0⟩)
    else if ¬ env.is_bot_admin chatId then (none, ⟨0, 1, 0⟩)
    else if ¬ env.is_user_creator chatId userId then (none, ⟨0, 0, 1⟩)
    else (some (build_chat_data chat (env.chat_photo chatId)), ⟨0, 0, 0⟩)

/-- `filtered_chats.sort(key=lambda x: x['title'].lower())`
(`String.toLower` lowercases the ASCII range; the claims do not
exercise non-ASCII ordering). -/
def sortChatsByTitle (cs : List ChatData) : List ChatData :=
  List.insertionSort (fun a b => a.title.toLower.data ≤ b.title.toLower.data) cs

/-- `get_chats_from_telegram` (the inner coroutine of the `/api/chats`
endpoint). Its whole body sits in a `try` whose handler catches
*every* exception and returns `([], 0)`, so a systemic upstream
failure (`bot.initialize()` raising, or every `bot.get_chat` failing —
the latter already swallowed inside `process_chat`) never propagates
out of this function. The stored ids are a Python `set`; its
iteration order is modelled by the list order (the endpoint sorts the
survivors before returning, and the skip totals are
order-independent). -/
def get_chats_from_telegram (env : ChatsEnv) (userId : Int) : List ChatData × Nat :=
  if ¬ env.initialize_ok then ([], 0)
  else
    let results := env.stored_chat_ids.map (fun cid => process_chat env cid userId)
    let filtered := results.filterMap Prod.fst
    (sortChatsByTitle filtered, env.stored_chat_ids.length)

structure ChatsStats where
  total : Nat
  groups : Nat
  supergroups : Nat
  privates : Nat
  channels : Nat
  deriving DecidableEq, Repr

/-- `calculate_stats` (`webapp/utils/chat_helpers.py`; the source keys
`'private'` and `'channels'` are constantly 0). -/
def calculate_stats (chats : List ChatData) : ChatsStats :=
  ⟨chats.length,
   (chats.filter (fun c => c.ctype = "group")).length,
   (chats.filter (fun c => c.ctype = "supergroup")).length,
   0, 0⟩

def infoNoChatsMsg : String :=
  "Чаты не найдены. Telegram Bot API не предоставляет способ получить список всех чатов."

/-- `get_info_message` (`webapp/utils/chat_helpers.py`); the source
text continues with registration instructions, abbreviated here to its
first sentence — no claim depends on the wording. -/
def get_info_message (hasChats hasStored : Bool) : Option String :=
  if ¬ hasChats ∧ ¬ hasStored then some infoNoChatsMsg else none

structure ChatsBody where
  success : Bool
  chats : List ChatData
  stats : ChatsStats
  info : Option String
  cached : Bool
  warning : Option String
  deriving DecidableEq, Repr

def chatsCacheKey (userId : Int) : String := "chats_" ++ toString userId

/-- `POST /api/chats` (`get_chats`): user-id guard, blank-`init_data`
guard, signature validation, then the aggregation. The success path
never reads the cache (`force_refresh` is validated but unused) and
always overwrites `chats_<user_id>` with the fresh body (TTL 300 s).
The source's `except TelegramError` / `except Exception` handlers —
the ones that would re-serve the cached body marked `cached=True` —
are unreachable from upstream failures, because
`get_chats_from_telegram` already catches every exception and returns
`([], 0)`; the embedding of the endpoint is therefore total with no
error path after validation. -/
def get_chats (env : ChatsEnv) (secretKey : List Nat) (now : ℚ) (tnow : Int)
    (initData : String) (userId : Option Int) (_forceRefresh : Bool)
    (cache : FlaskCache ChatsBody) : ApiResponse ChatsBody × FlaskCache ChatsBody :=
  match userId with
  | none => (.jsonError 400 "User ID не предоставлен", cache)
  | some uid =>
    if pyStrip initData = "" then
      (.jsonError 401 "Данные WebApp не предоставлены. Убедитесь, что приложение запущено через Telegram WebApp.", cache)
    else if (webappValidate secretKey tnow initData).toBool = false then
      (.jsonError 401 "Невалидные данные WebApp. Проверка подписи не пройдена. Убедитесь, что используется правильный токен бота.", cache)
    else
      let fr := get_chats_from_telegram env uid
      let stats := calculate_stats fr.1
      let info := get_info_message (decide (fr.1.length > 0)) (decide (fr.2 > 0))
      let body : ChatsBody := ⟨true, fr.1, stats, info, false, none⟩
      (.json 200 body, cache.set now (chatsCacheKey uid) body 300)

/-! ## Concrete fixtures used by the end-to-end and divergence results -/

/-- A concretely valid credential for secret `"s"` configured as
`WEBAPP_SECRET_KEY` (so the webapp validator uses `utf8Encode "s"` as
key): no fields besides `hash`, whose value is the digest of the empty
canonical string (`hmacHex (utf8Encode "s") []` — see
`validInitData_signed`; written as a literal so concrete runs do not
re-evaluate the digest at every traversal of the string). -/
def validInitData : String :=
  "hash=64eca07cce67929c357d63d0a4aec207e774800403298914fc04e88ce02ac49f"

/-- The design document's Retryable class (§4.2): network, timeout or
transient-conflict — a throttle signal is classified separately. -/
def isRetryableClass : PyErr → Bool
  | .network => true
  | .timedOut => true
  | .conflict => true
  | _ => false

/-- An operation failing with a transient network error on its first
invocation and succeeding on the second. -/
def c3op : Nat → Except PyErr Nat :=
  fun i => if i = 1 then .error .network else .ok 42

/-- An operation first throttled (`RetryAfter w`), then failing with a
network error, then succeeding with `v`. -/
def c4op (w : Int) (v : Nat) : Nat → Except PyErr Nat :=
  fun i => if i = 1 then .error (.retryAfter w) else if i = 2 then .error .network else .ok v

/-- The same sequence with the throttled failure removed. -/
def c4opNoThrottle (v : Nat) : Nat → Except PyErr Nat :=
  fun i => if i = 1 then .error .network else .ok v

/-- A previously cached `/api/chats` aggregate for user 7. -/
def chatsPrevBody : ChatsBody :=
  ⟨true, [⟨-100, "Old Group", "group", none, none, none⟩], ⟨1, 1, 0, 0, 0⟩, none, false, none⟩

/-- A warm web cache: the aggregate above stored under `chats_7`,
expiring at instant 1000. -/
def chatsWarmCache : FlaskCache ChatsBody := [("chats_7", ⟨1000, chatsPrevBody⟩)]

/-- Collaborator behaviour in which every upstream call fails
systemically (`bot.initialize()` itself raises, and every other call
would too). -/
def chatsFailEnv : ChatsEnv :=
  ⟨false, [-100], fun _ => .error (), fun _ => false, fun _ _ => false, fun _ => none⟩

/-- The empty aggregate the failing run produces. -/
def chatsEmptyBody : ChatsBody :=
  ⟨true, [], ⟨0, 0, 0, 0, 0⟩, some infoNoChatsMsg, false, none⟩

/-- Members-endpoint collaborators for a caller who is not the chat's
creator (the bot is an admin and the member list would be available). -/
def notCreatorEnv : MembersEnv := ⟨false, true, .ok []⟩

/-- A members body previously cached for chat 5 / user 7. -/
def membersPrevBody : MembersBody := ⟨true, [⟨42, "Ann", none⟩], false, none⟩

/-- A warm members cache for chat 5 / user 7, expiring at instant 1000. -/
def membersWarmCache : FlaskCache MembersBody :=
  [(membersCacheKey 5 7, ⟨1000, membersPrevBody⟩)]

/-- `HMAC-SHA256(key = HMAC("WebAppData", "s"), msg = "auth_date=5")` —
the digest the bot validator itself would compute for the credential
`auth_date=5` under secret `"s"` (literal; connected to the computation
by `c8botDigest_signed`). -/
def c8botDigest : String :=
  "49be4951da54f90f91de34f83d3f66b648e4a442f8625855e393d5999c1b2c9d"

/-- `auth_date=5` carrying the bot validator's own digest: its
signature is valid in exactly the sense the bot's code checks. -/
def c8botCred : String := "auth_date=5&hash=" ++ c8botDigest

/-- `HMAC-SHA256(key = "s", msg = "auth_date=5")` — the digest the
webapp validator computes for the same fields (literal; connected by
`c8webDigest_signed`). -/
def c8webDigest : String :=
  "e82fe5b344029bb2951e1f8d38ac8518a56487de9a01525ca34c6809b88f32fc"

/-- `auth_date=5` carrying the webapp validator's digest. -/
def c8webCred : String := "auth_date=5&hash=" ++ c8webDigest

/-- The credential `signedCredentialBot "s" [("auth_date", "5")]`
written out: `auth_date=5` URL-encoded together with the digest of the
canonical string `auth_date=5` under the bot validator's derived key
(literal; the first conjunct of the round-trip theorem proves the
equality). -/
def c1botCred : String :=
  "auth_date=5&hash=49be4951da54f90f91de34f83d3f66b648e4a442f8625855e393d5999c1b2c9d"

/-! ## Association-list lemmas -/

theorem alookup_filter_key {α : Type} (f : String → Bool) (key : String)
    (l : List (String × α)) :
    alookup key (l.filter (fun p => f p.1)) = if f key then alookup key l else none := by
  induction l with
  | nil => simp [alookup]
  | cons p rest ih =>
    by_cases hp : f p.1
    · by_cases hk : p.1 = key
      · subst hk
        simp [alookup, hp, List.filter_cons]
      · simp [alookup, hp, hk, List.filter_cons, ih]
    · by_cases hk : p.1 = key
      · subst hk
        simp [alookup, hp, List.filter_cons, ih]
      · simp [alookup, hp, hk, List.filter_cons, ih]

theorem alookup_eq_none_iff {α : Type} (key : String) (l : List (String × α)) :
    alookup key l = none ↔ ∀ p ∈ l, p.1 ≠ key := by
  induction l with
  | nil => simp [alookup]
  | cons p rest ih =>
    by_cases hk : p.1 = key
    · simp [alookup, hk]
    · simp [alookup, hk, ih]

theorem alookup_append {α : Type} (key : String) (l1 l2 : List (String × α)) :
    alookup key (l1 ++ l2) = (alookup key l1).orElse (fun _ => alookup key l2) := by
  induction l1 with
  | nil => simp [alookup]
  | cons p rest ih =>
    by_cases hk : p.1 = key
    · simp [alookup, hk]
    · simp [alookup, hk, ih]

theorem alookup_map_update_self {α : Type} (k : String) (v : α) (d : List (String × α))
    (h : d.any (fun p => p.1 = k) = true) :
    alookup k (d.map (fun p => if p.1 = k then (k, v) else p)) = some v := by
  induction d with
  | nil => simp at h
  | cons p rest ih =>
    obtain ⟨k1, v1⟩ := p
    simp only [List.any_cons, Bool.or_eq_true, decide_eq_true_eq] at h
    by_cases hp : k1 = k
    · subst hp
      simp only [List.map_cons]
      simp [alookup]
    · have hr : rest.any (fun p => p.1 = k) = true := by
        rcases h with h | h
        · exact absurd h hp
        · simpa using h
      simp only [List.map_cons]
      have hHead : (if (k1, v1).1 = k then (k, v) else (k1, v1)) = (k1, v1) := by
        simp [hp]
      rw [hHead]
      simp only [alookup]
      rw [if_neg hp]
      exact ih hr

theorem alookup_map_update_other {α : Type} (k k2 : String) (v : α)
    (hne : k ≠ k2) (d : List (String × α)) :
    alookup k2 (d.map (fun p => if p.1 = k then (k, v) else p)) = alookup k2 d := by
  induction d with
  | nil => simp
  | cons p rest ih =>
    obtain ⟨k1, v1⟩ := p
    simp only [List.map_cons]
    by_cases hp : k1 = k
    · subst hp
      have hHead : (if (k1, v1).1 = k1 then (k1, v) else (k1, v1)) = (k1, v) := by simp
      rw [hHead]
      simp only [alookup]
      rw [if_neg hne, if_neg hne, ih]
    · have hHead : (if (k1, v1).1 = k then (k, v) else (k1, v1)) = (k1, v1) := by simp [hp]
      rw [hHead]
      simp only [alookup]
      by_cases h2 : k1 = k2
      · rw [if_pos h2, if_pos h2]
      · rw [if_neg h2, if_neg h2, ih]

theorem alookup_dictInsert_self {α : Type} (d : List (String × α)) (k : String) (v : α) :
    alookup k (dictInsert d k v) = some v := by
  unfold dictInsert
  by_cases h : d.any (fun p => p.1 = k) = true
  · rw [if_pos h]
    exact alookup_map_update_self k v d h
  · rw [if_neg h, alookup_append]
    have hd : alookup k d = none := by
      rw [alookup_eq_none_iff]
      intro p hp he
      exact h (List.any_eq_true.mpr ⟨p, hp, by simp [he]⟩)
    simp [hd, alookup]

theorem alookup_dictInsert_other {α : Type} (d : List (String × α)) (k k2 : String) (v : α)
    (hne : k ≠ k2) : alookup k2 (dictInsert d k v) = alookup k2 d := by
  unfold dictInsert
  by_cases h : d.any (fun p => p.1 = k) = true
  · rw [if_pos h]
    exact alookup_map_update_other k k2 v hne d
  · rw [if_neg h, alookup_append]
    cases hd : alookup k2 d with
    | some v2 => simp
    | none => simp [alookup, hne]

/-! ## C7 — prefix invalidation removes exactly the matching keys -/

/-- C7: for every prefix `p`, cache state and key `k`,
`invalidate_pattern p` removes exactly the entries whose key starts
with `p`: afterwards `k` resolves to `none` when `k` starts with `p`
and to its previous binding otherwise. -/
theorem C7_invalidate_pattern_exact {α : Type} (c : SimpleCache α) (pat key : String) :
    alookup key (SimpleCache.invalidate_pattern c pat) =
      if pyStartsWith key pat then none else alookup key c := by
  unfold SimpleCache.invalidate_pattern
  rw [alookup_filter_key (fun k => !pyStartsWith k pat) key c]
  cases h : pyStartsWith key pat <;> simp [h]

/-! ## Cache lemmas and C5 -/

theorem alookup_dictErase_self {α : Type} (d : List (String × α)) (k : String) :
    alookup k (dictErase d k) = none := by
  induction d with
  | nil => rfl
  | cons p rest ih =>
    obtain ⟨k1, v1⟩ := p
    by_cases hp : k1 = k
    · simpa [dictErase, List.filter_cons, hp] using ih
    · simpa [dictErase, List.filter_cons, hp, alookup] using ih

theorem alookup_dictErase_other {α : Type} (d : List (String × α)) (k k2 : String)
    (h : k2 ≠ k) : alookup k2 (dictErase d k) = alookup k2 d := by
  induction d with
  | nil => rfl
  | cons p rest ih =>
    obtain ⟨k1, v1⟩ := p
    by_cases hp : k1 = k
    · subst hp
      have h12 : ¬ k1 = k2 := fun he => h he.symm
      simp only [dictErase, List.filter_cons] at ih ⊢
      simp [alookup, h12, ih]
    · by_cases h2 : k1 = k2
      · subst h2
        simp only [dictErase, List.filter_cons] at ih ⊢
        simp [alookup, hp]
      · simp only [dictErase, List.filter_cons] at ih ⊢
        simp [alookup, hp, h2, ih]

theorem dictErase_of_not_mem {α : Type} (d : List (String × α)) (k : String)
    (h : ∀ p ∈ d, p.1 ≠ k) : dictErase d k = d := by
  induction d with
  | nil => rfl
  | cons p rest ih =>
    have hp : p.1 ≠ k := h p (by simp)
    have ihr : dictErase rest k = rest := ih (fun q hq => h q (by simp [hq]))
    simp [dictErase, List.filter_cons, hp] at ihr ⊢
    exact ihr

/-- Length of the erase when the key is present exactly once. -/
theorem dictErase_length_of_mem {α : Type} (d : List (String × α)) (k : String) (e : α)
    (hnodup : (d.map Prod.fst).Nodup) (hl : alookup k d = some e) :
    (dictErase d k).length + 1 = d.length := by
  induction d with
  | nil => simp [alookup] at hl
  | cons p rest ih =>
    obtain ⟨k1, v1⟩ := p
    simp only [List.map_cons, List.nodup_cons] at hnodup
    by_cases hp : k1 = k
    · subst hp
      have hrest : ∀ q ∈ rest, q.1 ≠ k1 := by
        intro q hq he
        exact hnodup.1 (he ▸ List.mem_map_of_mem Prod.fst hq)
      have herase : dictErase ((k1, v1) :: rest) k1 = rest := by
        have h0 := dictErase_of_not_mem rest k1 hrest
        simp only [dictErase, List.filter_cons] at h0 ⊢
        simp [h0]
      rw [herase]
      simp
    · have hl2 : alookup k rest = some e := by
        simp only [alookup] at hl
        rwa [if_neg hp] at hl
      have ihr := ih hnodup.2 hl2
      have hhead : dictErase ((k1, v1) :: rest) k = (k1, v1) :: dictErase rest k := by
        simp [dictErase, List.filter_cons, hp]
      rw [hhead, List.length_cons, List.length_cons]
      omega

/-- The expired-entry count is unchanged by erasing the freshly
expired key and moving the clock from `t1` to `t2`, when every other
entry keeps its expiry status and the key's entry was live at `t1`. -/
theorem filter_expired_erase {α : Type} (c : SimpleCache α) (key : String) (e : CacheEntry α)
    (t1 t2 : ℚ)
    (hnodup : (c.map Prod.fst).Nodup)
    (hl : alookup key c = some e)
    (h1 : e.is_expired t1 = false)
    (hframe : ∀ p ∈ c, p.1 ≠ key → p.2.is_expired t2 = p.2.is_expired t1) :
    ((dictErase c key).filter (fun p => p.2.is_expired t2)).length =
      (c.filter (fun p => p.2.is_expired t1)).length := by
  induction c with
  | nil => rfl
  | cons p rest ih =>
    obtain ⟨k1, v1⟩ := p
    simp only [List.map_cons, List.nodup_cons] at hnodup
    by_cases hp : k1 = key
    · subst hp
      have hv : v1 = e := by simpa [alookup] using hl
      subst hv
      have hrest : ∀ q ∈ rest, q.1 ≠ k1 := by
        intro q hq he
        exact hnodup.1 (he ▸ List.mem_map_of_mem Prod.fst hq)
      have herase : dictErase ((k1, v1) :: rest) k1 = rest := by
        have h0 := dictErase_of_not_mem rest k1 hrest
        simp only [dictErase, List.filter_cons] at h0 ⊢
        simp [h0]
      rw [herase]
      have hfilt : rest.filter (fun p => p.2.is_expired t2) =
          rest.filter (fun p => p.2.is_expired t1) :=
        List.filter_congr (fun q hq => by
          rw [hframe q (by simp [hq]) (hrest q hq)])
      rw [hfilt]
      simp [List.filter_cons, h1]
    · have hl2 : alookup key rest = some e := by
        simp only [alookup] at hl
        rwa [if_neg hp] at hl
      have hfr : ∀ q ∈ rest, q.1 ≠ key → q.2.is_expired t2 = q.2.is_expired t1 :=
        fun q hq => hframe q (by simp [hq])
      have hhead : v1.is_expired t2 = v1.is_expired t1 :=
        hframe (k1, v1) (by simp) hp
      have ihv := ih hnodup.2 hl2 hfr
      have hhead2 : dictErase ((k1, v1) :: rest) key = (k1, v1) :: dictErase rest key := by
        simp [dictErase, List.filter_cons, hp]
      rw [hhead2]
      cases hh : v1.is_expired t1 <;>
        simp [List.filter_cons, hh, hhead, ihv]

/-- A live entry under `key` keeps the expired-entry count strictly
below the total. -/
theorem filter_expired_lt {α : Type} (c : SimpleCache α) (key : String) (e : CacheEntry α)
    (t1 : ℚ) (hl : alookup key c = some e) (h1 : e.is_expired t1 = false) :
    (c.filter (fun p => p.2.is_expired t1)).length + 1 ≤ c.length := by
  induction c with
  | nil => simp [alookup] at hl
  | cons p rest ih =>
    obtain ⟨k1, v1⟩ := p
    by_cases hp : k1 = key
    · subst hp
      have hv : v1 = e := by simpa [alookup] using hl
      subst hv
      have hle := List.length_filter_le (fun p : String × CacheEntry α => p.2.is_expired t1) rest
      simp only [List.filter_cons, List.length_cons]
      rw [show ((k1, v1).2.is_expired t1) = false from h1]
      simpa using Nat.succ_le_succ hle
    · have hl2 : alookup key rest = some e := by
        simp only [alookup] at hl
        rwa [if_neg hp] at hl
      have ihr := ih hl2
      simp only [List.filter_cons, List.length_cons]
      cases hh : ((k1, v1).2.is_expired t1) <;> simp <;> omega

/-- C5 (amended: `ttl ≥ 0` in the read-back part): (a) a cache read
never returns an entry once `now` is past its deadline; (b) `set`
followed by an immediate `get` returns the stored value when the TTL
is non-negative; (c) reading an entry that expired between `t1` and
`t2` returns nothing, removes the entry, and — relative to the stats
before the expiry — decreases the active count by exactly one. -/
theorem C5_cache_ttl_semantics :
    (∀ (c : SimpleCache Nat) (now : ℚ) (key : String) (e : CacheEntry Nat),
      alookup key c = some e → e.is_expired now = true →
      (SimpleCache.get c now key).1 = none) ∧
    (∀ (c : SimpleCache Nat) (now : ℚ) (key : String) (v : Nat) (ttl : ℚ), 0 ≤ ttl →
      (SimpleCache.get (SimpleCache.set c now key v ttl) now key).1 = some v) ∧
    (∀ (c : SimpleCache Nat) (key : String) (e : CacheEntry Nat) (t1 t2 : ℚ),
      (c.map Prod.fst).Nodup →
      alookup key c = some e →
      e.is_expired t1 = false →
      e.is_expired t2 = true →
      (∀ p ∈ c, p.1 ≠ key → p.2.is_expired t2 = p.2.is_expired t1) →
      (SimpleCache.get c t2 key).1 = none ∧
      alookup key (SimpleCache.get c t2 key).2 = none ∧
      (SimpleCache.get_stats (SimpleCache.get c t2 key).2 t2).active_entries + 1 =
        (SimpleCache.get_stats c t1).active_entries) := by
  refine ⟨?_, ?_, ?_⟩
  · intro c now key e hl hx
    simp [SimpleCache.get, hl, hx]
  · intro c now key v ttl h
    unfold SimpleCache.set SimpleCache.get
    rw [alookup_dictInsert_self]
    have hx : ({ value := v, expires_at := now + ttl, created_at := now } : CacheEntry Nat).is_expired now = false := by
      simp only [CacheEntry.is_expired, decide_eq_false_iff_not, not_lt]
      linarith
    simp only [CacheEntry.mk']
    simp [hx]
  · intro c key e t1 t2 hnodup hl h1 h2 hframe
    have hget : SimpleCache.get c t2 key = (none, dictErase c key) := by
      simp [SimpleCache.get, hl, h2]
    rw [hget]
    refine ⟨rfl, alookup_dictErase_self c key, ?_⟩
    simp only [SimpleCache.get_stats]
    have hA := dictErase_length_of_mem c key e hnodup hl
    have hB := filter_expired_erase c key e t1 t2 hnodup hl h1 hframe
    have hC := filter_expired_lt c key e t1 hl h1
    have hD := List.length_filter_le (fun p : String × CacheEntry Nat => p.2.is_expired t2)
      (dictErase c key)
    omega

/-- C5 counterexample to the unrestricted claim ("for every ttl"): a
negative TTL makes the immediately following read miss (`expires_at`
lies in the past the moment the entry is created), so `set` then `get`
does not return the stored value. -/
theorem C5_negative_ttl_cex :
    (SimpleCache.get (SimpleCache.set ([] : SimpleCache Nat) 0 "k" 7 (-1)) 0 "k").1 = none := by
  have hx : (CacheEntry.mk' (0 : ℚ) 7 (-1)).is_expired 0 = true := by
    simp [CacheEntry.mk', CacheEntry.is_expired]
  simp [SimpleCache.set, SimpleCache.get, dictInsert, alookup, hx]

/-- Witness instantiating every part of `C5_cache_ttl_semantics` on a
concrete one-entry cache. -/
theorem C5_cache_ttl_semantics_witness :
    (SimpleCache.get [("k", (⟨7, 5, 0⟩ : CacheEntry Nat))] 6 "k").1 = none ∧
    (SimpleCache.get (SimpleCache.set ([] : SimpleCache Nat) 0 "k" 7 5) 0 "k").1 = some 7 ∧
    ((SimpleCache.get [("k", (⟨7, 5, 0⟩ : CacheEntry Nat))] 6 "k").1 = none ∧
      alookup "k" (SimpleCache.get [("k", (⟨7, 5, 0⟩ : CacheEntry Nat))] 6 "k").2 = none ∧
      (SimpleCache.get_stats (SimpleCache.get [("k", (⟨7, 5, 0⟩ : CacheEntry Nat))] 6 "k").2 6).active_entries + 1 =
        (SimpleCache.get_stats [("k", (⟨7, 5, 0⟩ : CacheEntry Nat))] 1).active_entries) := by
  refine ⟨?_, ?_, ?_⟩
  · exact C5_cache_ttl_semantics.1 [("k", ⟨7, 5, 0⟩)] 6 "k" ⟨7, 5, 0⟩ (by decide) (by decide)
  · exact C5_cache_ttl_semantics.2.1 [] 0 "k" 7 5 (by decide)
  · exact C5_cache_ttl_semantics.2.2 [("k", ⟨7, 5, 0⟩)] "k" ⟨7, 5, 0⟩ 1 6 (by decide)
      (by decide) (by decide) (by decide) (by decide)

/-! ## Retry-executor lemmas, C3 and C4 -/

theorem isRetryableClass_should_retry {e : PyErr} (h : isRetryableClass e = true) :
    should_retry e = true := by
  cases e <;> simp_all [isRetryableClass, should_retry]

theorem isRetryableClass_retryAfterOf {e : PyErr} (h : isRetryableClass e = true) :
    retryAfterOf e = none := by
  cases e <;> simp_all [isRetryableClass, retryAfterOf]

theorem calculate_delay_none (attempt : Nat) :
    calculate_delay attempt none = expDelay attempt := by
  simp [calculate_delay, pyTruthy]

theorem expDelay_le_max (attempt : Nat) : expDelay attempt ≤ MAX_DELAY :=
  min_le_right _ _

theorem expDelay_mono {a b : Nat} (h : a ≤ b) : expDelay a ≤ expDelay b := by
  unfold expDelay INITIAL_DELAY BACKOFF_MULTIPLIER
  refine min_le_min ?_ le_rfl
  rw [one_mul, one_mul]
  exact pow_le_pow_right₀ one_le_two (by omega)

/-- Characterisation of a run whose first `k` invocations (starting at
`attempt`) fail with Retryable-class errors and whose next invocation
succeeds: the executor returns the success after `attempt + k` calls,
sleeping the exponential schedule between them. -/
theorem retryFrom_spec {α : Type} (op : Nat → Except PyErr α) (maxA : Nat) (v : α) :
    ∀ (k attempt : Nat) (ds : List ℚ),
      1 ≤ attempt →
      attempt + k ≤ maxA →
      (∀ i, attempt ≤ i → i < attempt + k → ∃ e, op i = .error e ∧ isRetryableClass e = true) →
      op (attempt + k) = .ok v →
      retryFrom op maxA (maxA + 1 - attempt) attempt ds =
        ⟨.ok v, attempt + k, ds ++ (List.range k).map (fun j => expDelay (attempt + j))⟩ := by
  intro k
  induction k with
  | zero =>
    intro attempt ds h1 h2 _ hok
    obtain ⟨r, hr⟩ : ∃ r, maxA + 1 - attempt = r + 1 := ⟨maxA - attempt, by omega⟩
    rw [hr]
    simp only [retryFrom]
    rw [show attempt + 0 = attempt from rfl] at hok
    rw [hok]
    simp
  | succ k ih =>
    intro attempt ds h1 h2 hfail hok
    obtain ⟨e, he, hre⟩ := hfail attempt le_rfl (by omega)
    obtain ⟨r, hr⟩ : ∃ r, maxA + 1 - attempt = r + 1 := ⟨maxA - attempt, by omega⟩
    rw [hr]
    simp only [retryFrom, he]
    rw [if_pos (isRetryableClass_should_retry hre)]
    rw [if_neg (show ¬ maxA ≤ attempt by omega)]
    rw [show r = maxA + 1 - (attempt + 1) from by omega]
    rw [ih (attempt + 1) (ds ++ [calculate_delay attempt (retryAfterOf e)]) (by omega) (by omega)
      (fun i hi1 hi2 => hfail i (by omega) (by omega))
      (by rw [show attempt + 1 + k = attempt + (k + 1) from by omega]; exact hok)]
    rw [isRetryableClass_retryAfterOf hre, calculate_delay_none]
    have hcalls : attempt + 1 + k = attempt + (k + 1) := by omega
    have hds : (ds ++ [expDelay attempt]) ++
        (List.range k).map (fun j => expDelay (attempt + 1 + j)) =
        ds ++ (List.range (k + 1)).map (fun j => expDelay (attempt + j)) := by
      rw [List.range_succ_eq_map, List.map_cons, List.map_map, List.append_assoc,
        List.singleton_append]
      have h0 : expDelay (attempt + 0) = expDelay attempt := by norm_num
      have hfun : ((fun j => expDelay (attempt + j)) ∘ Nat.succ)
          = (fun j => expDelay (attempt + 1 + j)) := by
        funext j
        simp only [Function.comp_apply]
        congr 1
        omega
      rw [h0, hfun]
    rw [hcalls, hds]

/-- C3: an operation that raises a Retryable-class error
(network/timeout/transient-conflict) on each of its first `N − 1`
invocations and succeeds on the `N`-th, run with `max_attempts ≥ N`,
yields the success value after exactly `N` invocations; the backoff
delays slept in between are pairwise non-decreasing and each is at
most `MAX_DELAY`. -/
theorem C3_retry_success_after_transient_failures {α : Type} (op : Nat → Except PyErr α)
    (N maxA : Nat) (v : α)
    (hN : 1 ≤ N) (hNA : N ≤ maxA)
    (hfail : ∀ i, 1 ≤ i → i < N → ∃ e, op i = .error e ∧ isRetryableClass e = true)
    (hok : op N = .ok v) :
    (retry_async op maxA).outcome = .ok v ∧
    (retry_async op maxA).calls = N ∧
    (retry_async op maxA).delays.Pairwise (· ≤ ·) ∧
    ∀ d ∈ (retry_async op maxA).delays, d ≤ MAX_DELAY := by
  have hs := retryFrom_spec op maxA v (N - 1) 1 [] le_rfl (by omega)
    (fun i hi1 hi2 => hfail i hi1 (by omega))
    (by rw [show 1 + (N - 1) = N from by omega]; exact hok)
  rw [show maxA + 1 - 1 = maxA from by omega] at hs
  rw [show 1 + (N - 1) = N from by omega] at hs
  unfold retry_async
  rw [hs]
  refine ⟨rfl, rfl, ?_, ?_⟩
  · simp only [List.nil_append]
    refine List.Pairwise.map _ ?_ (List.pairwise_lt_range (N - 1))
    intro a b hab
    exact expDelay_mono (by omega)
  · intro d hd
    simp only [List.nil_append, List.mem_map] at hd
    obtain ⟨j, _, rfl⟩ := hd
    exact expDelay_le_max _

/-- Witness for C3 at `N = 2`, `max_attempts = 3`: one network failure
then success. -/
theorem C3_retry_success_witness :
    (retry_async c3op 3).outcome = .ok 42 ∧
    (retry_async c3op 3).calls = 2 ∧
    (retry_async c3op 3).delays.Pairwise (· ≤ ·) ∧
    ∀ d ∈ (retry_async c3op 3).delays, d ≤ MAX_DELAY :=
  C3_retry_success_after_transient_failures c3op 2 3 42 (by decide) (by decide)
    (fun i h1 h2 => by
      have hi : i = 1 := by omega
      subst hi
      exact ⟨.network, rfl, rfl⟩)
    rfl

/-- C4 as amended: (i) an attempt failing with `Throttled(w)` for
`w ≥ 1` makes the executor sleep `min(w, MAX_DELAY)` regardless of the
exponential schedule; (ii) but the throttled attempt consumes the
schedule: it advances the shared attempt counter, so a Retryable
failure on the next attempt backs off `expDelay 2` — not the
`expDelay 1` it would have received had the throttled failure not
occurred (the two runs' traces below differ exactly there). -/
theorem retryFrom_step {α : Type} (op : Nat → Except PyErr α) (maxA r attempt : Nat)
    (ds : List ℚ) (e : PyErr) (hop : op attempt = .error e)
    (hsr : should_retry e = true) (hlt : attempt < maxA) :
    retryFrom op maxA (r + 1) attempt ds =
      retryFrom op maxA r (attempt + 1) (ds ++ [calculate_delay attempt (retryAfterOf e)]) := by
  simp only [retryFrom, hop]
  rw [if_pos hsr, if_neg (by omega)]

theorem retryFrom_stop {α : Type} (op : Nat → Except PyErr α) (maxA r attempt : Nat)
    (ds : List ℚ) (v : α) (hop : op attempt = .ok v) :
    retryFrom op maxA (r + 1) attempt ds = ⟨.ok v, attempt, ds⟩ := by
  simp only [retryFrom, hop]

theorem C4_throttle_delay_and_schedule (w : Int) (v : Nat) (maxA : Nat)
    (hw : 1 ≤ w) (hA : 3 ≤ maxA) :
    retry_async (c4op w v) maxA =
      ⟨.ok v, 3, [min (w : ℚ) MAX_DELAY, expDelay 2]⟩ ∧
    retry_async (c4opNoThrottle v) maxA = ⟨.ok v, 2, [expDelay 1]⟩ ∧
    expDelay 2 ≠ expDelay 1 := by
  obtain ⟨m, rfl⟩ : ∃ m, maxA = m + 3 := ⟨maxA - 3, by omega⟩
  refine ⟨?_, ?_, ?_⟩
  · show retryFrom (c4op w v) (m + 3) (m + 3) 1 [] = _
    rw [show m + 3 = (m + 2) + 1 from rfl,
      retryFrom_step _ _ _ _ _ (.retryAfter w) (by simp [c4op]) rfl (by omega),
      show m + 2 = (m + 1) + 1 from rfl,
      retryFrom_step _ _ _ _ _ .network (by simp [c4op]) rfl (by omega),
      retryFrom_stop _ _ m 3 _ v (by simp [c4op])]
    have hw0 : pyTruthy (some w) = true := by simp [pyTruthy]; omega
    have hd1 : calculate_delay 1 (retryAfterOf (PyErr.retryAfter w)) = min (w : ℚ) MAX_DELAY := by
      simp [retryAfterOf, calculate_delay, hw0]
    have hd2 : calculate_delay 2 (retryAfterOf PyErr.network) = expDelay 2 := by
      rw [show retryAfterOf PyErr.network = none from rfl, calculate_delay_none]
    rw [hd1, hd2]
    simp
  · show retryFrom (c4opNoThrottle v) (m + 3) (m + 3) 1 [] = _
    rw [show m + 3 = (m + 2) + 1 from rfl,
      retryFrom_step _ _ _ _ _ .network (by simp [c4opNoThrottle]) rfl (by omega),
      retryFrom_stop _ _ (m + 1) 2 _ v (by simp [c4opNoThrottle])]
    have hd1 : calculate_delay 1 (retryAfterOf PyErr.network) = expDelay 1 := by
      rw [show retryAfterOf PyErr.network = none from rfl, calculate_delay_none]
    rw [hd1]
    simp
  · unfold expDelay INITIAL_DELAY BACKOFF_MULTIPLIER MAX_DELAY
    norm_num [min_def]

/-- Witness for the amended C4 at `w = 5`, `max_attempts = 3`. -/
theorem C4_throttle_delay_witness :
    retry_async (c4op 5 0) 3 = ⟨.ok 0, 3, [min ((5 : Int) : ℚ) MAX_DELAY, expDelay 2]⟩ ∧
    retry_async (c4opNoThrottle 0) 3 = ⟨.ok 0, 2, [expDelay 1]⟩ ∧
    expDelay 2 ≠ expDelay 1 :=
  C4_throttle_delay_and_schedule 5 0 3 (by decide) (by decide)

/-- C4 counterexample to "the throttled retry does not consume the
exponential schedule": with `Throttled(5)` at attempt 1 and a network
failure at attempt 2, the delays are `[5, 2]`, whereas without the
throttled failure the network failure sleeps `[1]` — the subsequent
Retryable backoff differs from the run in which the throttled failure
did not occur. -/
theorem C4_throttle_consumes_schedule_cex :
    (retry_async (c4op 5 0) 3).delays = [5, 2] ∧
    (retry_async (c4opNoThrottle 0) 3).delays = [1] ∧
    (retry_async (c4op 5 0) 3).delays.drop 1 ≠ (retry_async (c4opNoThrottle 0) 3).delays := by
  have h1 : retry_async (c4op 5 0) 3 = ⟨.ok 0, 3, [5, 2]⟩ := by
    show retryFrom (c4op 5 0) 3 3 1 [] = _
    simp only [retryFrom, c4op]
    norm_num [calculate_delay, pyTruthy, retryAfterOf, expDelay, INITIAL_DELAY,
      BACKOFF_MULTIPLIER, MAX_DELAY, min_def, should_retry]
  have h2 : retry_async (c4opNoThrottle 0) 3 = ⟨.ok 0, 2, [1]⟩ := by
    show retryFrom (c4opNoThrottle 0) 3 3 1 [] = _
    simp only [retryFrom, c4opNoThrottle]
    norm_num [calculate_delay, pyTruthy, retryAfterOf, expDelay, INITIAL_DELAY,
      BACKOFF_MULTIPLIER, MAX_DELAY, min_def, should_retry]
  rw [h1, h2]
  refine ⟨rfl, rfl, ?_⟩
  simp only [List.drop]
  intro h
  have := List.head_eq_of_cons_eq h
  norm_num at this

/-- The fixture credential is indeed the webapp-side signature of the
empty field map under secret `"s"`. -/
theorem validInitData_signed : validInitData = "hash=" ++ hmacHex (utf8Encode "s") [] := by
  decide

/-! ## C6 — list-members authorization vs the cache probe -/

/-- C6 as amended: when the caller's valid request finds no fresh
members cache entry for `(chat, user)` (or forces a refresh) and the
principal is not the chat's creator, the endpoint answers with the 403
authorization error and leaves the cache untouched. (As stated over
*every* request the claim fails: a warm cache entry is served before
the ownership check — see the counterexample.) -/
theorem C6_cold_cache_authorization_error (env : MembersEnv) (token : String)
    (secretKey : List Nat) (now : ℚ) (tnow : Int) (chatId : Int) (initData : String)
    (uid : Int) (forceRefresh : Bool) (cache : FlaskCache MembersBody)
    (hcr : env.is_user_creator = false)
    (hvalid : (webappValidate secretKey tnow initData).toBool = true)
    (hcache : forceRefresh = true ∨
      FlaskCache.get cache now (membersCacheKey chatId uid) = none) :
    get_chat_members env token secretKey now tnow chatId initData (some uid) forceRefresh
      cache = (.jsonError 403 notCreatorMsg, cache) := by
  unfold get_chat_members
  simp only [hvalid, Bool.true_eq_false, if_false]
  have hprobe : (if forceRefresh = true then none
      else FlaskCache.get cache now (membersCacheKey chatId uid)) = (none : Option MembersBody) := by
    rcases hcache with h | h
    · simp [h]
    · cases forceRefresh <;> simp [h]
  rw [hprobe]
  unfold check_and_get_members
  rw [hcr]
  simp

/-- Witness for the amended C6: concretely valid credential, cold
cache, caller not the creator. -/
theorem C6_cold_cache_authorization_witness :
    get_chat_members notCreatorEnv "t" (utf8Encode "s") 10 0 5 validInitData (some 7) false
      ([] : FlaskCache MembersBody) = (.jsonError 403 notCreatorMsg, []) :=
  C6_cold_cache_authorization_error notCreatorEnv "t" (utf8Encode "s") 10 0 5 validInitData
    7 false [] rfl (by decide) (Or.inr rfl)

/-- C6 counterexample to the claim as stated: with a warm members
cache entry for `(5, 7)` and a caller who is *not* the creator
(`force_refresh` unset), the endpoint serves the cached 200 success
without consulting the ownership check — not an authorization error. -/
theorem C6_warm_cache_bypasses_authorization_cex :
    get_chat_members notCreatorEnv "t" (utf8Encode "s") 10 0 5 validInitData (some 7) false
      membersWarmCache = (.json 200 membersPrevBody, membersWarmCache) ∧
    (get_chat_members notCreatorEnv "t" (utf8Encode "s") 10 0 5 validInitData (some 7) false
      membersWarmCache).1 ≠ .jsonError 403 notCreatorMsg := by
  exact ⟨rfl, by decide⟩

/-! ## C2 — systemic upstream failure on `/api/chats` with a warm cache -/

/-- C2 (the code contradicts the claim): with a valid credential, a
warm unexpired cached aggregate for user 7, and every upstream call
failing systemically, the endpoint returns a *successful empty*
aggregate (no `cached`/degraded marking) and overwrites the warm cache
entry with it; the degraded path that would re-serve the cached
aggregate is unreachable because the inner coroutine swallows every
exception. -/
theorem C2_systemic_failure_returns_empty_overwrites_cache :
    FlaskCache.get chatsWarmCache 10 "chats_7" = some chatsPrevBody ∧
    get_chats chatsFailEnv (utf8Encode "s") 10 0 validInitData (some 7) false chatsWarmCache =
      (.json 200 chatsEmptyBody,
        FlaskCache.set chatsWarmCache 10 "chats_7" chatsEmptyBody 300) ∧
    chatsEmptyBody.chats = [] ∧ chatsEmptyBody.cached = false :=
  ⟨rfl, rfl, rfl, rfl⟩

/-! ## C10 — the two validators are not equivalent -/

/-- C10 counterexample: with the same configured secret `"s"` and the
same instant, the credential `validInitData` (hash = webapp-style
digest of the empty canonical string) is accepted by the webapp
validator and rejected by the bot validator, whose derived key is
`HMAC(key="WebAppData", msg=secret)` rather than the secret itself. -/
theorem C10_validators_disagree_cex :
    (webappValidate (get_webapp_secret_key (some "s") "token") 0 validInitData).toBool = true ∧
    (botValidate (some "s") validInitData).toBool = false := by
  exact ⟨by decide, by decide⟩

/-- C10 as amended: the two implementations are not equivalent — some
credential string is accepted by one and rejected by the other under
the same configured secret and instant. -/
theorem C10_validators_not_equivalent :
    ∃ initData : String,
      (webappValidate (get_webapp_secret_key (some "s") "token") 0 initData).toBool ≠
        (botValidate (some "s") initData).toBool :=
  ⟨validInitData, by decide⟩

/-! ## UTF-8 round trip -/

theorem utf8_decode_encode_cons (c : Char) (bs : List Nat) :
    utf8DecodeReplace (utf8EncodeChar c ++ bs) = c :: utf8DecodeReplace bs := by
  have hv : c.toNat < 55296 ∨ (57343 < c.toNat ∧ c.toNat < 1114112) := c.valid
  by_cases h1 : c.toNat < 128
  · have he : utf8EncodeChar c = [c.toNat] := by
      unfold utf8EncodeChar
      rw [if_pos h1]
    rw [he, List.cons_append, List.nil_append]
    rw [utf8DecodeReplace.eq_def]
    dsimp only
    rw [if_pos h1, Char.ofNat_toNat]
  · by_cases h2 : c.toNat < 2048
    · have he : utf8EncodeChar c = [192 + c.toNat / 64, 128 + c.toNat % 64] := by
        unfold utf8EncodeChar
        rw [if_neg h1, if_pos h2]
      rw [he, List.cons_append, List.cons_append, List.nil_append]
      rw [utf8DecodeReplace.eq_def]
      dsimp only
      rw [if_neg (by omega), if_neg (by omega), if_pos (by omega), if_pos (by omega)]
      rw [show (192 + c.toNat / 64 - 192) * 64 + (128 + c.toNat % 64 - 128) = c.toNat from by
        omega]
      rw [Char.ofNat_toNat]
    · by_cases h3 : c.toNat < 65536
      · have he : utf8EncodeChar c =
            [224 + c.toNat / 4096, 128 + c.toNat / 64 % 64, 128 + c.toNat % 64] := by
          unfold utf8EncodeChar
          rw [if_neg h1, if_neg h2, if_pos h3]
        rw [he, List.cons_append, List.cons_append, List.cons_append, List.nil_append]
        rw [utf8DecodeReplace.eq_def]
        dsimp only
        rw [if_neg (by omega), if_neg (by omega), if_neg (by omega), if_pos (by omega)]
        have hcond : (if 224 + c.toNat / 4096 = 224 then
            160 ≤ 128 + c.toNat / 64 % 64 ∧ 128 + c.toNat / 64 % 64 < 192
            else if 224 + c.toNat / 4096 = 237 then
              128 ≤ 128 + c.toNat / 64 % 64 ∧ 128 + c.toNat / 64 % 64 < 160
            else 128 ≤ 128 + c.toNat / 64 % 64 ∧ 128 + c.toNat / 64 % 64 < 192) := by
          by_cases ha : 224 + c.toNat / 4096 = 224
          · rw [if_pos ha]
            omega
          · by_cases hb : 224 + c.toNat / 4096 = 237
            · rw [if_neg ha, if_pos hb]
              rcases hv with hv | hv <;> omega
            · rw [if_neg ha, if_neg hb]
              omega
        rw [if_pos hcond, if_pos (by omega)]
        rw [show (224 + c.toNat / 4096 - 224) * 4096 + (128 + c.toNat / 64 % 64 - 128) * 64 +
            (128 + c.toNat % 64 - 128) = c.toNat from by omega]
        rw [Char.ofNat_toNat]
      · have h4 : c.toNat < 1114112 := by rcases hv with hv | hv <;> omega
        have he : utf8EncodeChar c = [240 + c.toNat / 262144, 128 + c.toNat / 4096 % 64,
            128 + c.toNat / 64 % 64, 128 + c.toNat % 64] := by
          unfold utf8EncodeChar
          rw [if_neg h1, if_neg h2, if_neg h3]
        rw [he, List.cons_append, List.cons_append, List.cons_append, List.cons_append,
          List.nil_append]
        rw [utf8DecodeReplace.eq_def]
        dsimp only
        rw [if_neg (by omega), if_neg (by omega), if_neg (by omega), if_neg (by omega),
          if_pos (by omega)]
        have hcond : (if 240 + c.toNat / 262144 = 240 then
            144 ≤ 128 + c.toNat / 4096 % 64 ∧ 128 + c.toNat / 4096 % 64 < 192
            else if 240 + c.toNat / 262144 = 244 then
              128 ≤ 128 + c.toNat / 4096 % 64 ∧ 128 + c.toNat / 4096 % 64 < 144
            else 128 ≤ 128 + c.toNat / 4096 % 64 ∧ 128 + c.toNat / 4096 % 64 < 192) := by
          by_cases ha : 240 + c.toNat / 262144 = 240
          · rw [if_pos ha]
            omega
          · by_cases hb : 240 + c.toNat / 262144 = 244
            · rw [if_neg ha, if_pos hb]
              omega
            · rw [if_neg ha, if_neg hb]
              omega
        rw [if_pos hcond, if_pos (by omega), if_pos (by omega)]
        rw [show (240 + c.toNat / 262144 - 240) * 262144 + (128 + c.toNat / 4096 % 64 - 128) * 4096 +
            (128 + c.toNat / 64 % 64 - 128) * 64 + (128 + c.toNat % 64 - 128) = c.toNat from by
          omega]
        rw [Char.ofNat_toNat]

theorem utf8_decode_encode (cs : List Char) :
    utf8DecodeReplace (cs.flatMap utf8EncodeChar) = cs := by
  induction cs with
  | nil => rfl
  | cons c rest ih =>
    rw [show (c :: rest).flatMap utf8EncodeChar = utf8EncodeChar c ++ rest.flatMap utf8EncodeChar
      from rfl]
    rw [utf8_decode_encode_cons, ih]

/-! ## Percent-encoding round trip -/

theorem utf8EncodeChar_lt_256 (c : Char) : ∀ b ∈ utf8EncodeChar c, b < 256 := by
  have hv : c.toNat < 55296 ∨ (57343 < c.toNat ∧ c.toNat < 1114112) := c.valid
  unfold utf8EncodeChar
  by_cases h1 : c.toNat < 128
  · rw [if_pos h1]
    intro b hb
    simp only [List.mem_singleton] at hb
    omega
  · by_cases h2 : c.toNat < 2048
    · rw [if_neg h1, if_pos h2]
      intro b hb
      simp only [List.mem_cons, List.mem_singleton, List.not_mem_nil, or_false] at hb
      rcases hb with rfl | rfl <;> omega
    · by_cases h3 : c.toNat < 65536
      · rw [if_neg h1, if_neg h2, if_pos h3]
        intro b hb
        simp only [List.mem_cons, List.mem_singleton, List.not_mem_nil, or_false] at hb
        rcases hb with rfl | rfl | rfl <;> omega
      · rw [if_neg h1, if_neg h2, if_neg h3]
        intro b hb
        simp only [List.mem_cons, List.mem_singleton, List.not_mem_nil, or_false] at hb
        have h4 : c.toNat < 1114112 := by rcases hv with hv | hv <;> omega
        rcases hb with rfl | rfl | rfl | rfl <;> omega

theorem hexVal_hexDigitUpper : ∀ k, k < 16 → hexVal (hexDigitUpper k) = some k := by
  decide

theorem hexDigitUpper_props : ∀ k, k < 16 →
    (hexDigitUpper k).toNat < 128 ∧ hexDigitUpper k ≠ '%' ∧ hexDigitUpper k ≠ '+' ∧
    hexDigitUpper k ≠ '&' ∧ hexDigitUpper k ≠ '=' := by
  decide

theorem alwaysSafe_props (c : Char) (h : alwaysSafeChar c = true) :
    c.toNat < 128 ∧ c ≠ '%' ∧ c ≠ '+' ∧ c ≠ '&' ∧ c ≠ '=' ∧ c ≠ ' ' := by
  unfold alwaysSafeChar at h
  rw [decide_eq_true_iff] at h
  rcases h with h | h | h | rfl | rfl | rfl | rfl
  · exact ⟨by omega, fun he => by subst he; exact absurd h (by decide),
      fun he => by subst he; exact absurd h (by decide),
      fun he => by subst he; exact absurd h (by decide),
      fun he => by subst he; exact absurd h (by decide),
      fun he => by subst he; exact absurd h (by decide)⟩
  · exact ⟨by omega, fun he => by subst he; exact absurd h (by decide),
      fun he => by subst he; exact absurd h (by decide),
      fun he => by subst he; exact absurd h (by decide),
      fun he => by subst he; exact absurd h (by decide),
      fun he => by subst he; exact absurd h (by decide)⟩
  · exact ⟨by omega, fun he => by subst he; exact absurd h (by decide),
      fun he => by subst he; exact absurd h (by decide),
      fun he => by subst he; exact absurd h (by decide),
      fun he => by subst he; exact absurd h (by decide),
      fun he => by subst he; exact absurd h (by decide)⟩
  · exact ⟨by decide, by decide, by decide, by decide, by decide, by decide⟩
  · exact ⟨by decide, by decide, by decide, by decide, by decide, by decide⟩
  · exact ⟨by decide, by decide, by decide, by decide, by decide, by decide⟩
  · exact ⟨by decide, by decide, by decide, by decide, by decide, by decide⟩

/-- Every character emitted by `quote_plus` is ASCII and is neither
`'&'` nor `'='`. -/
theorem quoteChar_props (c : Char) :
    ∀ x ∈ quoteChar c, x.toNat < 128 ∧ x ≠ '&' ∧ x ≠ '=' := by
  unfold quoteChar
  by_cases hs : alwaysSafeChar c = true
  · rw [if_pos hs]
    intro x hx
    simp only [List.mem_singleton] at hx
    subst hx
    obtain ⟨ha, _, _, hamp, heq, _⟩ := alwaysSafe_props x hs
    exact ⟨ha, hamp, heq⟩
  · rw [if_neg hs]
    by_cases hsp : c = ' '
    · rw [if_pos hsp]
      intro x hx
      simp only [List.mem_singleton] at hx
      subst hx
      exact ⟨by decide, by decide, by decide⟩
    · rw [if_neg hsp]
      intro x hx
      simp only [List.mem_flatMap] at hx
      obtain ⟨b, hb, hx⟩ := hx
      have hb256 : b < 256 := utf8EncodeChar_lt_256 c b hb
      simp only [List.mem_cons] at hx
      rcases hx with rfl | hx
      · exact ⟨by decide, by decide, by decide⟩
      · unfold hexByteUpper at hx
        simp only [List.mem_cons, List.mem_singleton, List.not_mem_nil, or_false] at hx
        rcases hx with rfl | rfl
        · obtain ⟨h1, _, _, h4, h5⟩ := hexDigitUpper_props (b / 16) (by omega)
          exact ⟨h1, h4, h5⟩
        · obtain ⟨h1, _, _, h4, h5⟩ := hexDigitUpper_props (b % 16) (by omega)
          exact ⟨h1, h4, h5⟩

theorem plusToSpace_id (l : List Char) (h : ∀ x ∈ l, x ≠ '+') : plusToSpace l = l := by
  unfold plusToSpace
  induction l with
  | nil => rfl
  | cons a t ih =>
    rw [List.map_cons]
    rw [if_neg (h a (by simp)), ih (fun x hx => h x (by simp [hx]))]

/-- No `'+'` survives `plusToSpace`; on `quoteChar` output the only
`'+'` is the one standing for a space. -/
theorem plusToSpace_quoteChar (c : Char) :
    plusToSpace (quoteChar c) = if alwaysSafeChar c = true then [c]
      else if c = ' ' then [' ']
      else (utf8EncodeChar c).flatMap (fun b => '%' :: hexByteUpper b) := by
  unfold quoteChar
  by_cases hs : alwaysSafeChar c = true
  · rw [if_pos hs, if_pos hs]
    obtain ⟨_, _, hplus, _, _, _⟩ := alwaysSafe_props c hs
    simp [plusToSpace, hplus]
  · rw [if_neg hs, if_neg hs]
    by_cases hsp : c = ' '
    · rw [if_pos hsp, if_pos hsp]
      rfl
    · rw [if_neg hsp, if_neg hsp]
      apply plusToSpace_id
      intro x hx
      simp only [List.mem_flatMap] at hx
      obtain ⟨b, hb, hx⟩ := hx
      have hb256 : b < 256 := utf8EncodeChar_lt_256 c b hb
      simp only [List.mem_cons] at hx
      rcases hx with rfl | hx
      · decide
      · unfold hexByteUpper at hx
        simp only [List.mem_cons, List.mem_singleton, List.not_mem_nil, or_false] at hx
        rcases hx with rfl | rfl
        · exact (hexDigitUpper_props (b / 16) (by omega)).2.2.1
        · exact (hexDigitUpper_props (b % 16) (by omega)).2.2.1

theorem percentBytes_cons_nonpct (c : Char) (rest : List Char) (hc : ¬ c = '%') :
    percentBytes (c :: rest) = c.toNat :: percentBytes rest := by
  rw [percentBytes.eq_def]
  dsimp only
  rw [if_neg hc]

theorem percentBytes_encoded (bs : List Nat) (h : ∀ b ∈ bs, b < 256) (rest : List Char) :
    percentBytes (bs.flatMap (fun b => '%' :: hexByteUpper b) ++ rest) =
      bs ++ percentBytes rest := by
  induction bs with
  | nil => simp
  | cons b tl ih =>
    have hb : b < 256 := h b (by simp)
    rw [show ((b :: tl).flatMap (fun b => '%' :: hexByteUpper b)) =
        '%' :: hexDigitUpper (b / 16) :: hexDigitUpper (b % 16) ::
          tl.flatMap (fun b => '%' :: hexByteUpper b) from rfl]
    rw [List.cons_append, List.cons_append, List.cons_append]
    rw [percentBytes.eq_def]
    dsimp only
    rw [hexVal_hexDigitUpper (b / 16) (by omega), hexVal_hexDigitUpper (b % 16) (by omega)]
    dsimp only
    rw [show 16 * (b / 16) + b % 16 = b from by omega]
    rw [ih (fun x hx => h x (by simp [hx]))]
    rfl

/-- Percent-decoding inverts `quote_plus` at the byte level:
the decoded bytes are exactly the UTF-8 encoding of the original. -/
theorem percentBytes_quote (cs : List Char) :
    percentBytes (plusToSpace (quotePlusChars cs)) = cs.flatMap utf8EncodeChar := by
  induction cs with
  | nil => rfl
  | cons c tl ih =>
    rw [show quotePlusChars (c :: tl) = quoteChar c ++ quotePlusChars tl from rfl]
    unfold plusToSpace
    rw [List.map_append]
    rw [show (quoteChar c).map (fun c => if c = '+' then ' ' else c) = plusToSpace (quoteChar c)
      from rfl]
    rw [show (quotePlusChars tl).map (fun c => if c = '+' then ' ' else c)
      = plusToSpace (quotePlusChars tl) from rfl]
    rw [plusToSpace_quoteChar]
    rw [show (c :: tl).flatMap utf8EncodeChar = utf8EncodeChar c ++ tl.flatMap utf8EncodeChar
      from rfl]
    by_cases hs : alwaysSafeChar c = true
    · rw [if_pos hs]
      obtain ⟨ha, hpc, _, _, _, _⟩ := alwaysSafe_props c hs
      rw [List.singleton_append, percentBytes_cons_nonpct c _ hpc, ih]
      rw [show utf8EncodeChar c = [c.toNat] from by unfold utf8EncodeChar; rw [if_pos ha]]
      rfl
    · rw [if_neg hs]
      by_cases hsp : c = ' '
      · rw [if_pos hsp]
        rw [List.singleton_append, percentBytes_cons_nonpct ' ' _ (by decide), ih]
        subst hsp
        rw [show utf8EncodeChar ' ' = [' '.toNat] from rfl]
        rfl
      · rw [if_neg hsp]
        rw [percentBytes_encoded (utf8EncodeChar c) (utf8EncodeChar_lt_256 c) _, ih]

/-! ## `unquote` on an all-ASCII input -/

theorem unquoteGo_allAscii (l : List Char) : ∀ acc, (∀ x ∈ l, x.toNat < 128) →
    unquoteGo acc l = decodeRun (acc.reverse ++ l) := by
  induction l with
  | nil =>
    intro acc _
    rw [unquoteGo]
    simp
  | cons c rest ih =>
    intro acc h
    rw [unquoteGo]
    rw [if_pos (h c (by simp))]
    rw [ih (c :: acc) (fun x hx => h x (by simp [hx]))]
    congr 1
    simp

theorem quote_output_ascii (cs : List Char) :
    ∀ x ∈ plusToSpace (quotePlusChars cs), x.toNat < 128 := by
  intro x hx
  unfold plusToSpace at hx
  simp only [List.mem_map] at hx
  obtain ⟨y, hy, rfl⟩ := hx
  unfold quotePlusChars at hy
  simp only [List.mem_flatMap] at hy
  obtain ⟨c, _, hy⟩ := hy
  have hya : y.toNat < 128 := (quoteChar_props c y hy).1
  by_cases hp : y = '+'
  · simp [hp]
  · simp [hp]
    exact hya

/-- `unquote(quote_plus(s).replace('+', ' '))` recovers `s`: the parse
side exactly inverts the encode side on names and values. -/
theorem unqPlus_quote (s : String) : unqPlus (quotePlusChars s.data) = s := by
  unfold unqPlus unquote
  rw [show (String.mk (plusToSpace (quotePlusChars s.data))).data
    = plusToSpace (quotePlusChars s.data) from rfl]
  rw [unquoteGo_allAscii _ [] (quote_output_ascii s.data)]
  rw [show (([] : List Char).reverse ++ plusToSpace (quotePlusChars s.data))
    = plusToSpace (quotePlusChars s.data) from by simp]
  unfold decodeRun
  rw [percentBytes_quote, utf8_decode_encode]

/-! ## Key-absence lemmas for `pyDict` and `parse_qsl` -/

theorem alookup_dictInsert_none {α : Type} (d : List (String × α)) (k k' : String) (v : α)
    (hne : k' ≠ k) (h : alookup k d = none) : alookup k (dictInsert d k' v) = none := by
  rw [alookup_eq_none_iff] at h
  unfold dictInsert
  by_cases hany : d.any (fun p => p.1 = k') = true
  · rw [if_pos hany, alookup_eq_none_iff]
    intro q hq
    rw [List.mem_map] at hq
    obtain ⟨p, hp, rfl⟩ := hq
    by_cases hpk : p.1 = k'
    · rw [if_pos hpk]
      exact hne
    · rw [if_neg hpk]
      exact h p hp
  · rw [if_neg hany, alookup_eq_none_iff]
    intro q hq
    rw [List.mem_append] at hq
    rcases hq with hq | hq
    · exact h q hq
    · simp only [List.mem_singleton] at hq
      subst hq
      exact hne

theorem alookup_foldl_dictInsert_none {α : Type} (k : String) (l : List (String × α))
    (hl : ∀ p ∈ l, p.1 ≠ k) :
    ∀ d, alookup k d = none →
      alookup k (l.foldl (fun d p => dictInsert d p.1 p.2) d) = none := by
  induction l with
  | nil =>
    intro d hd
    exact hd
  | cons p rest ih =>
    intro d hd
    rw [List.foldl_cons]
    exact ih (fun q hq => hl q (by simp [hq]))
      (dictInsert d p.1 p.2) (alookup_dictInsert_none d k p.1 p.2 (hl p (by simp)) hd)

theorem alookup_pyDict_none {α : Type} (k : String) (l : List (String × α))
    (hl : ∀ p ∈ l, p.1 ≠ k) : alookup k (pyDict l) = none :=
  alookup_foldl_dictInsert_none k l hl [] rfl

/-- Every pair produced by `parse_qsl` without blank values is also
produced with them kept. -/
theorem parseQsl_false_sub (s : String) (p : String × String)
    (hp : p ∈ parseQsl false s) : p ∈ parseQsl true s := by
  unfold parseQsl at hp ⊢
  rw [List.mem_filterMap] at hp ⊢
  obtain ⟨seg, hseg, hf⟩ := hp
  refine ⟨seg, hseg, ?_⟩
  by_cases he : seg.isEmpty = true
  · rw [if_pos he] at hf
    exact absurd hf (by simp)
  · rw [if_neg he] at hf ⊢
    cases hsp : splitFirst '=' seg with
    | none =>
      simp only [hsp] at hf
      exact absurd hf (by simp)
    | some nv =>
      obtain ⟨n, v⟩ := nv
      simp only [hsp] at hf ⊢
      by_cases hv : v.isEmpty = true
      · rw [if_pos (by simp [hv])] at hf
        exact absurd hf (by simp)
      · rw [if_neg (by simp [hv])] at hf
        rw [if_neg (by simp)]
        exact hf

/-- C9: a non-empty credential string whose URL-decoded fields do not
contain the key `hash` is rejected with the MissingSignature outcome by
both validators — the webapp's (`webapp/app.py`) and the bot's
(`bot/utils/webapp_validator.py`) — whatever the configured secret and
the current time; neither validator succeeds or reaches a signature
comparison. -/
theorem C9_missing_hash_missing_signature (cfg : Option String) (secretKey : List Nat)
    (tnow : Int) (s : String) (hne : s ≠ "")
    (hnohash : ∀ p ∈ parseQsl true s, p.1 ≠ "hash") :
    webappValidate secretKey tnow s = .missingSignature ∧
      botValidate cfg s = .missingSignature := by
  have hweb : alookup "hash" (parseQsl true s) = none :=
    (alookup_eq_none_iff "hash" (parseQsl true s)).2 hnohash
  have hbot : alookup "hash" (pyDict (parseQsl false s)) = none :=
    alookup_pyDict_none "hash" (parseQsl false s)
      (fun p hp => hnohash p (parseQsl_false_sub s p hp))
  constructor
  · unfold webappValidate
    rw [if_neg hne]
    dsimp only
    rw [hweb]
  · unfold botValidate
    rw [if_neg hne]
    dsimp only
    rw [hbot]

theorem C9_missing_hash_witness :
    ("a=1" : String) ≠ "" ∧ (∀ p ∈ parseQsl true "a=1", p.1 ≠ "hash") ∧
      webappValidate (utf8Encode "s") 0 "a=1" = .missingSignature ∧
      botValidate (some "s") "a=1" = .missingSignature :=
  ⟨by decide, by decide,
    (C9_missing_hash_missing_signature (some "s") (utf8Encode "s") 0 "a=1"
      (by decide) (by decide)).1,
    (C9_missing_hash_missing_signature (some "s") (utf8Encode "s") 0 "a=1"
      (by decide) (by decide)).2⟩

/-! ## C8: expiry outcomes -/

theorem c8botDigest_signed :
    c8botDigest = hmacHex (hmacSha256 (utf8Encode "WebAppData") (utf8Encode "s"))
      (utf8Encode "auth_date=5") := by
  decide

theorem c8webDigest_signed :
    c8webDigest = hmacHex (utf8Encode "s") (utf8Encode "auth_date=5") := by
  decide

/-- C8: on the webapp validator the claim holds — for every credential
string whose received `hash` equals the digest the validator computes
and whose `auth_date` parses to a timestamp `t`, the outcome is
`expired` exactly when `now - t > 86400` and `valid` otherwise. On the
bot validator the claim fails: `c8botCred` carries the digest the bot's
own key derivation and data-check string produce (second and third
conjuncts), its `auth_date` (5) would be old or fresh depending on the
clock, yet the outcome is the exception fallback — the age comparison
reads the nonexistent `Config.WEBAPP_DATA_MAX_AGE`, raising
`AttributeError` before any signature comparison, so neither `Expired`
nor success is ever produced. -/
theorem C8_expiry_outcomes :
    (∀ (secretKey : List Nat) (tnow : Int) (s h v : String) (t : Int),
      s ≠ "" →
      alookup "hash" (parseQsl true s) = some h →
      hmacHex secretKey (utf8Encode (webDataCheckString (parseQsl true s))) = h →
      alookup "auth_date" (parseQsl true s) = some v →
      pyParseInt v = some t →
      (tnow - t > 86400 → webappValidate secretKey tnow s = .expired) ∧
      (tnow - t ≤ 86400 → webappValidate secretKey tnow s = .valid)) ∧
    (alookup "hash" (pyDict (parseQsl false c8botCred)) = some c8botDigest ∧
      hmacHex (hmacSha256 (utf8Encode "WebAppData") (utf8Encode "s"))
        (utf8Encode (botDataCheckString (dictErase (pyDict (parseQsl false c8botCred)) "hash")))
        = c8botDigest ∧
      botValidate (some "s") c8botCred = .exceptionCaught) := by
  constructor
  · intro secretKey tnow s h v t hne hhash hcalc hauth hparse
    have hmain : webappValidate secretKey tnow s =
        if tnow - t > 86400 then .expired else .valid := by
      unfold webappValidate
      rw [if_neg hne]
      dsimp only
      simp only [hhash]
      rw [if_neg (fun hx => hx hcalc)]
      simp only [hauth, hparse]
    constructor
    · intro hgt
      rw [hmain, if_pos hgt]
    · intro hle
      rw [hmain, if_neg (by omega)]
  · exact ⟨by decide, by decide, by decide⟩

theorem C8_expiry_witness :
    webappValidate (utf8Encode "s") 100000 c8webCred = .expired ∧
      webappValidate (utf8Encode "s") 10 c8webCred = .valid :=
  ⟨(C8_expiry_outcomes.1 (utf8Encode "s") 100000 c8webCred c8webDigest "5" 5
      (by decide) (by decide) (by decide) (by decide) (by decide)).1 (by decide),
    (C8_expiry_outcomes.1 (utf8Encode "s") 10 c8webCred c8webDigest "5" 5
      (by decide) (by decide) (by decide) (by decide) (by decide)).2 (by decide)⟩

/-! ## Split/join round trip -/

theorem splitFirst_append (c : Char) (l1 l2 : List Char) (h : c ∉ l1) :
    splitFirst c (l1 ++ c :: l2) = some (l1, l2) := by
  induction l1 with
  | nil =>
    rw [List.nil_append]
    unfold splitFirst
    rw [if_pos rfl]
  | cons x t ih =>
    rw [List.cons_append]
    unfold splitFirst
    rw [if_neg (by rintro rfl; exact h (List.mem_cons_self _ _))]
    rw [ih (fun hc => h (List.mem_cons_of_mem x hc))]
    rfl

theorem splitOnChar_append_no_sep (sep : Char) (t : List Char) (hd : List Char)
    (tl : List (List Char)) (ht : splitOnChar sep t = hd :: tl) :
    ∀ x : List Char, sep ∉ x → splitOnChar sep (x ++ t) = (x ++ hd) :: tl := by
  intro x
  induction x with
  | nil =>
    intro _
    rw [List.nil_append, ht, List.nil_append]
  | cons a s ih =>
    intro h
    have ih2 := ih (fun hm => h (List.mem_cons_of_mem a hm))
    unfold splitOnChar at ih2 ⊢
    rw [List.cons_append, List.foldr_cons, ih2]
    dsimp only
    rw [if_neg (by rintro rfl; exact h (List.mem_cons_self _ _))]
    rw [List.cons_append]

theorem splitOnChar_cons_sep (sep : Char) (t : List Char) (hd : List Char)
    (tl : List (List Char)) (ht : splitOnChar sep t = hd :: tl) :
    splitOnChar sep (sep :: t) = [] :: hd :: tl := by
  unfold splitOnChar at ht ⊢
  rw [List.foldr_cons, ht]
  dsimp only
  rw [if_pos rfl]

theorem splitOnChar_intercalate (sep : Char) :
    ∀ segs : List (List Char), segs ≠ [] → (∀ seg ∈ segs, sep ∉ seg) →
      splitOnChar sep (intercalateChar sep segs) = segs
  | [], h, _ => absurd rfl h
  | [x], _, hall => by
    show splitOnChar sep x = [x]
    have h0 := splitOnChar_append_no_sep sep [] [] [] rfl x
      (hall x (List.mem_singleton.mpr rfl))
    rw [List.append_nil] at h0
    exact h0
  | x :: y :: rest, _, hall => by
    have hih := splitOnChar_intercalate sep (y :: rest) (by simp)
      (fun s hs => hall s (List.mem_cons_of_mem x hs))
    show splitOnChar sep (x ++ sep :: intercalateChar sep (y :: rest)) = x :: y :: rest
    have h1 := splitOnChar_cons_sep sep (intercalateChar sep (y :: rest)) y rest hih
    have h2 := splitOnChar_append_no_sep sep (sep :: intercalateChar sep (y :: rest))
      [] (y :: rest) h1 x (hall x (List.mem_cons_self _ _))
    rw [List.append_nil] at h2
    exact h2

theorem mem_quotePlusChars_props (cs : List Char) (x : Char) (hx : x ∈ quotePlusChars cs) :
    x.toNat < 128 ∧ x ≠ '&' ∧ x ≠ '=' := by
  unfold quotePlusChars at hx
  rw [List.mem_flatMap] at hx
  obtain ⟨c, _, hx⟩ := hx
  exact quoteChar_props c x hx

theorem append_cons_isEmpty_false (c : Char) (l1 l2 : List Char) :
    (l1 ++ c :: l2).isEmpty = false := by
  cases l1 <;> rfl

/-- `parse_qsl(urlencode(G), keep_blank_values=True)` recovers the
pair list `G` exactly, for every nonempty `G` (every name and value
round-trips through `quote_plus`/`unquote`). -/
theorem parseQsl_urlencode (G : List (String × String)) (hne : G ≠ []) :
    parseQsl true (urlencode G) = G := by
  unfold parseQsl urlencode
  rw [show (String.mk (intercalateChar '&'
      (G.map (fun p => quotePlusChars p.1.data ++ '=' :: quotePlusChars p.2.data)))).data
    = intercalateChar '&'
      (G.map (fun p => quotePlusChars p.1.data ++ '=' :: quotePlusChars p.2.data)) from rfl]
  rw [splitOnChar_intercalate '&' _
    (by
      cases G with
      | nil => exact absurd rfl hne
      | cons p t => simp)
    (by
      intro seg hseg
      rw [List.mem_map] at hseg
      obtain ⟨p, _, rfl⟩ := hseg
      intro hm
      rw [List.mem_append] at hm
      rcases hm with hm | hm
      · exact (mem_quotePlusChars_props _ _ hm).2.1 rfl
      · rw [List.mem_cons] at hm
        rcases hm with hm | hm
        · exact absurd hm (by decide)
        · exact (mem_quotePlusChars_props _ _ hm).2.1 rfl)]
  rw [List.filterMap_map]
  refine Eq.trans (List.filterMap_congr ?_) (List.filterMap_some G)
  intro p hp
  dsimp only [Function.comp]
  rw [append_cons_isEmpty_false]
  rw [if_neg (by simp)]
  rw [splitFirst_append '=' _ _ (fun hm => (mem_quotePlusChars_props _ _ hm).2.2 rfl)]
  dsimp only
  rw [if_neg (by simp)]
  rw [unqPlus_quote, unqPlus_quote]

/-! ## Canonical-string equality -/

theorem dedupFirstGo_nodup (l : List String) : ∀ seen : List String, l.Nodup →
    (∀ k ∈ l, seen.contains k = false) → dedupFirstGo seen l = l := by
  induction l with
  | nil => intro seen _ _; rfl
  | cons k ks ih =>
    intro seen hnd hs
    unfold dedupFirstGo
    rw [hs k (List.mem_cons_self _ _)]
    rw [if_neg (by simp)]
    rw [ih (k :: seen) (List.Nodup.of_cons hnd) (by
      intro k2 hk2
      rw [List.contains_cons]
      have h1 : (k2 == k) = false := beq_eq_false_iff_ne.mpr
        (fun he => (List.nodup_cons.mp hnd).1 (he ▸ hk2))
      rw [h1, hs k2 (List.mem_cons_of_mem k hk2)]
      rfl)]

theorem dedupFirst_nodup (l : List String) (h : l.Nodup) : dedupFirst l = l :=
  dedupFirstGo_nodup l [] h (fun _ _ => rfl)

theorem sortStrings_filter_append_hash (ks : List String) (hh : ∀ k ∈ ks, k ≠ "hash") :
    (sortStrings (ks ++ ["hash"])).filter (fun k => k ≠ "hash") = sortStrings ks := by
  haveI ht : IsTotal String (fun a b : String => a.data ≤ b.data) :=
    ⟨fun a b => le_total a.data b.data⟩
  haveI htr : IsTrans String (fun a b : String => a.data ≤ b.data) :=
    ⟨fun _ _ _ h1 h2 => le_trans h1 h2⟩
  haveI has : IsAntisymm String (fun a b : String => a.data ≤ b.data) :=
    ⟨fun a b h1 h2 => by cases a; cases b; exact congrArg String.mk (le_antisymm h1 h2)⟩
  have hperm : ((sortStrings (ks ++ ["hash"])).filter (fun k => k ≠ "hash")).Perm
      (sortStrings ks) := by
    have p1 : ((sortStrings (ks ++ ["hash"])).filter (fun k => k ≠ "hash")).Perm
        ((ks ++ ["hash"]).filter (fun k => k ≠ "hash")) :=
      List.Perm.filter _ (List.perm_insertionSort _ _)
    have p2 : (ks ++ ["hash"]).filter (fun k => k ≠ "hash") = ks := by
      rw [List.filter_append]
      rw [List.filter_eq_self.mpr (fun k hk => decide_eq_true (hh k hk))]
      rw [show (["hash"].filter (fun k => k ≠ "hash")) = [] from rfl]
      rw [List.append_nil]
    have p3 : ks.Perm (sortStrings ks) := (List.perm_insertionSort _ _).symm
    exact (p2 ▸ p1).trans p3
  exact List.eq_of_perm_of_sorted hperm
    (List.Pairwise.filter _ (List.sorted_insertionSort _ _))
    (List.sorted_insertionSort _ _)

/-- With unique, `hash`-free keys, the webapp's `data_check_string` of
the parsed credential equals the design document's canonical string of
the original field map. -/
theorem webDataCheckString_append_hash (F : List (String × String)) (H : String)
    (hnd : (F.map Prod.fst).Nodup) (hh : ∀ p ∈ F, p.1 ≠ "hash") :
    webDataCheckString (F ++ [("hash", H)]) = canonicalSpec F := by
  have hkh : ∀ k ∈ F.map Prod.fst, k ≠ "hash" := by
    intro k hk
    rw [List.mem_map] at hk
    obtain ⟨p, hp, rfl⟩ := hk
    exact hh p hp
  unfold webDataCheckString canonicalSpec
  rw [show (F ++ [("hash", H)]).map Prod.fst = F.map Prod.fst ++ ["hash"] from by
    rw [List.map_append]; rfl]
  rw [dedupFirst_nodup (F.map Prod.fst ++ ["hash"]) (List.nodup_append.mpr
    ⟨hnd, List.nodup_singleton _, by
      intro a ha hb
      rw [List.mem_singleton] at hb
      exact hkh a ha hb⟩)]
  rw [sortStrings_filter_append_hash (F.map Prod.fst) hkh]
  refine congrArg joinNl (List.map_congr_left ?_)
  intro k hk
  have hkne : k ≠ "hash" :=
    hkh k ((List.perm_insertionSort _ _).mem_iff.mp hk)
  refine congrArg (fun x => k ++ "=" ++ x) ?_
  rw [alookup_append]
  cases hl : alookup k F with
  | some v => rfl
  | none =>
    show (alookup k [("hash", H)]).getD "" = (none : Option String).getD ""
    rw [show alookup k [("hash", H)] = if "hash" = k then some H else none from rfl]
    rw [if_neg (fun he => hkne he.symm)]

/-- C1: the signed round trip holds for the webapp validator and fails
for the bot validator. Webapp (`webapp/app.py`): for every field map
`F` with unique keys, none named `hash`, and `auth_date` absent or
within 86400 seconds of `now`, URL-encoding `F` plus a `hash` field
holding the hex HMAC-SHA256 of the canonical string (keys sorted,
`key=value` joined by newlines) under the validator's own key (the
configured secret, used directly) validates successfully. Bot
(`bot/utils/webapp_validator.py`): the credential `c1botCred` is
`auth_date=5` URL-encoded together with exactly the digest the bot's
documented derivation produces (`key = HMAC("WebAppData", secret)`,
first conjunct), and its `auth_date` is fresh for `now = 5`, yet
validation returns the exception-fallback outcome (`False`): the age
check dereferences the nonexistent `Config.WEBAPP_DATA_MAX_AGE` and the
resulting `AttributeError` is swallowed by `except Exception`. -/
theorem C1_signed_roundtrip :
    (∀ (secretKey : List Nat) (now : Int) (F : List (String × String)),
      (F.map Prod.fst).Nodup →
      (∀ p ∈ F, p.1 ≠ "hash") →
      authDateFresh now F = true →
      webappValidate secretKey now (signedCredentialWeb secretKey F) = .valid) ∧
    (signedCredentialBot "s" [("auth_date", "5")] = c1botCred ∧
      authDateFresh 5 [("auth_date", "5")] = true ∧
      botValidate (some "s") c1botCred = .exceptionCaught) := by
  constructor
  · intro secretKey now F hnd hh hfresh
    have hparse : parseQsl true (signedCredentialWeb secretKey F)
        = F ++ [("hash", hmacHex secretKey (utf8Encode (canonicalSpec F)))] :=
      parseQsl_urlencode _ (by simp)
    have hsne : signedCredentialWeb secretKey F ≠ "" := by
      intro h0
      rw [h0] at hparse
      rw [show parseQsl true "" = [] from rfl] at hparse
      exact absurd hparse.symm (by simp)
    have hhF : alookup "hash" F = none := (alookup_eq_none_iff _ _).2 hh
    have hhash : alookup "hash"
        (F ++ [("hash", hmacHex secretKey (utf8Encode (canonicalSpec F)))])
        = some (hmacHex secretKey (utf8Encode (canonicalSpec F))) := by
      rw [alookup_append, hhF]
      rfl
    have hauth : alookup "auth_date"
        (F ++ [("hash", hmacHex secretKey (utf8Encode (canonicalSpec F)))])
        = alookup "auth_date" F := by
      rw [alookup_append]
      cases hl : alookup "auth_date" F with
      | some v => rfl
      | none => rfl
    unfold webappValidate
    rw [if_neg hsne]
    dsimp only
    simp only [hparse, hhash]
    rw [webDataCheckString_append_hash F _ hnd hh]
    rw [if_neg (fun hx => hx rfl)]
    simp only [hauth]
    unfold authDateFresh at hfresh
    cases had : alookup "auth_date" F with
    | none =>
      simp only [had]
    | some v =>
      rw [had] at hfresh
      dsimp only at hfresh
      simp only [had]
      cases hpi : pyParseInt v with
      | none =>
        simp only [hpi] at hfresh
        exact absurd hfresh (by simp)
      | some t =>
        simp only [hpi] at hfresh
        dsimp only
        rw [if_neg (by
          have h5 := of_decide_eq_true hfresh
          omega)]
  · refine ⟨by decide, by decide, by decide⟩

theorem C1_signed_roundtrip_witness :
    ([("auth_date", "5")].map (Prod.fst (α := String) (β := String))).Nodup ∧
      (∀ p ∈ [("auth_date", "5")], p.1 ≠ "hash") ∧
      authDateFresh 5 [("auth_date", "5")] = true ∧
      webappValidate (utf8Encode "s") 5
        (signedCredentialWeb (utf8Encode "s") [("auth_date", "5")]) = .valid :=
  ⟨by decide, by decide, by decide,
    C1_signed_roundtrip.1 (utf8Encode "s") 5 [("auth_date", "5")]
      (by decide) (by decide) (by decide)⟩
